import Mathlib

/-!
# CustomerCounterESP32: the CSV event log and its date aggregation

A shallow embedding of `src/CustomerCounterProject/src/main.cpp`.

* An Arduino `String` is the list of its characters (text without NUL).
* `int` results of `indexOf` are `Int` (`-1` for "not found"); passing an `int`
  where the library takes `unsigned int` goes through `toUnsigned`.
* The LittleFS volume is a map from paths to contents together with an oracle
  telling which `open` calls the storage refuses.
* `while` loops whose trip count is not syntactic take a fuel argument; the
  callers pass enough fuel and the theorems show it is never exhausted.
-/

namespace CustomerCounter

/-! ## Arduino `String` primitives -/

/-- An Arduino String, as the list of its characters. -/
abbrev Str := List Char

/-- Conversion of a 32-bit `int` to `unsigned int`. -/
def toUnsigned (i : Int) : Nat := (i % 4294967296).toNat

/-- C `strchr`: offset of the first occurrence of `ch`, if any. -/
def strchr : Str → Char → Option Nat
  | [], _ => none
  | c :: cs, ch => if c = ch then some 0 else (strchr cs ch).map (· + 1)

/-- C `strstr`: offset of the first occurrence of `needle`, if any. -/
def strstr : Str → Str → Option Nat
  | [], needle => if needle = [] then some 0 else none
  | c :: cs, needle =>
    if needle.isPrefixOf (c :: cs) then some 0 else (strstr cs needle).map (· + 1)

/-- `String::indexOf(char ch, unsigned int fromIndex)`. -/
def indexOfFrom (s : Str) (ch : Char) (fromIndex : Nat) : Int :=
  if fromIndex ≥ s.length then -1
  else
    match strchr (s.drop fromIndex) ch with
    | none => -1
    | some k => ((fromIndex + k : Nat) : Int)

/-- `String::indexOf(char ch)`. -/
def indexOf (s : Str) (ch : Char) : Int := indexOfFrom s ch 0

/-- `String::indexOf(const String &s2, unsigned int fromIndex)`. -/
def indexOfStrFrom (s s2 : Str) (fromIndex : Nat) : Int :=
  if fromIndex ≥ s.length then -1
  else
    match strstr (s.drop fromIndex) s2 with
    | none => -1
    | some k => ((fromIndex + k : Nat) : Int)

/-- `String::substring(unsigned int left, unsigned int right)`. -/
def substring (s : Str) (left right : Nat) : Str :=
  let lo := if left > right then right else left
  let hi := if left > right then left else right
  if lo ≥ s.length then []
  else
    let hi2 := if hi > s.length then s.length else hi
    (s.drop lo).take (hi2 - lo)

/-- `String::startsWith(const String &s2)`. -/
def startsWith (s s2 : Str) : Bool :=
  if s.length < s2.length then false else s.take s2.length == s2

/-- C `isspace` in the "C" locale. -/
def isspace (c : Char) : Bool :=
  c == ' ' || c == '\t' || c == '\n' || c == Char.ofNat 11 || c == Char.ofNat 12 || c == '\r'

/-- `String::trim()`: strips leading and trailing whitespace. -/
def trim (s : Str) : Str :=
  ((s.dropWhile isspace).reverse.dropWhile isspace).reverse

/-- `Print::println(const String &)`: the text followed by CR LF. -/
def println (s : Str) : Str := s ++ ['\r', '\n']

/-- `Stream::readStringUntil(terminator)` on the unread part of a file:
the characters before the first terminator (or all of them when there is
none), and what is left unread after consuming the terminator. -/
def readStringUntil (terminator : Char) : Str → Str × Str
  | [] => ([], [])
  | c :: cs =>
    if c = terminator then ([], cs)
    else ((c :: (readStringUntil terminator cs).1), (readStringUntil terminator cs).2)

/-! ## The LittleFS volume -/

/-- The modes the program opens files in (`FILE_READ`/"r", `FILE_WRITE`/"w", `FILE_APPEND`). -/
inductive OpenMode where
  | read
  | write
  | append
  deriving DecidableEq, Repr

/-- The volume: the content of each existing file, and the opens the storage refuses. -/
structure FS where
  files : String → Option Str
  fault : String → OpenMode → Bool

/-- Replace (or delete, with `none`) the content stored under `path`. -/
def FS.store (fs : FS) (path : String) (content : Option Str) : FS :=
  { files := fun p => if p = path then content else fs.files p, fault := fs.fault }

/-- `LittleFS.open(path, mode)`: `none` when the returned `File` is falsy,
otherwise the content visible through the handle and the volume after the open.
Reading needs an existing file; writing truncates or creates; appending creates. -/
def LittleFS.openFile (fs : FS) (path : String) (mode : OpenMode) : Option (Str × FS) :=
  if fs.fault path mode then none
  else
    match mode, fs.files path with
    | OpenMode.read, none => none
    | OpenMode.read, some c => some (c, fs)
    | OpenMode.write, _ => some ([], fs.store path (some []))
    | OpenMode.append, none => some ([], fs.store path (some []))
    | OpenMode.append, some c => some (c, fs)

/-- `LittleFS.remove(path)`. -/
def LittleFS.remove (fs : FS) (path : String) : FS := fs.store path none

/-- `LittleFS.rename(pathFrom, pathTo)`. -/
def LittleFS.rename (fs : FS) (pathFrom pathTo : String) : FS :=
  match fs.files pathFrom with
  | none => fs
  | some c => (fs.store pathTo (some c)).store pathFrom none

/-- The literal `"customer,date,time"`. -/
def csvHeader : Str := "customer,date,time".toList

/-- The literal `"customer"` used to recognise the header line. -/
def headerTag : Str := "customer".toList

/-- The global `csvPath`. -/
def csvPath : String := "/customer-list.csv"

/-- The temporary file of `removeLatestEntryOnDate`. -/
def tempPath : String := "/temp.csv"

/-! ## Event log store -/

/-- The expression `"1," + currentDate + "," + currentTime`. -/
def dataLine (currentDate currentTime : Str) : Str :=
  "1,".toList ++ currentDate ++ ",".toList ++ currentTime

/-- `appendToCSV(path, currentDate, currentTime)`: result flag and volume afterwards. -/
def appendToCSV (fs : FS) (path : String) (currentDate currentTime : Str) : Bool × FS :=
  match LittleFS.openFile fs path OpenMode.append with
  | none => (false, fs)
  | some (content, fs1) =>
    let header := if content.length = 0 then println csvHeader else []
    (true, fs1.store path (some (content ++ header ++ println (dataLine currentDate currentTime))))

/-- The date expression of `removeLatestEntryOnDate`:
`line.substring(commaIndex1 + 1, commaIndex2)` with
`commaIndex1 = line.indexOf(',')` and `commaIndex2 = line.indexOf(',', commaIndex1 + 1)`;
the `int` arguments are converted to `unsigned int`. -/
def extractDate (line : Str) : Str :=
  let commaIndex1 := indexOf line ','
  let commaIndex2 := indexOfFrom line ',' (toUnsigned (commaIndex1 + 1))
  substring line (toUnsigned (commaIndex1 + 1)) (toUnsigned commaIndex2)

/-- The `while (file.available())` loop of `removeLatestEntryOnDate`:
`file` is the unread part of the log, `tempFile` what has been written so far. -/
def removeLatestLoop (targetDate : Str) (fuel : Nat) (file tempFile : Str)
    (foundLatest : Bool) : Option Str :=
  if file.isEmpty then some tempFile
  else
    match fuel with
    | 0 => none
    | fuel + 1 =>
      let line := (readStringUntil '\n' file).1
      let rest := (readStringUntil '\n' file).2
      let currentDate := extractDate line
      if currentDate = targetDate ∧ foundLatest = false then
        removeLatestLoop targetDate fuel rest tempFile true
      else
        removeLatestLoop targetDate fuel rest (tempFile ++ println line) foundLatest

/-- `removeLatestEntryOnDate(path, targetDate)`: result flag and volume afterwards
(`none` only if the loop ran out of fuel). The log is read through its handle after
the temporary file has been opened; `remove` and `rename` are taken to succeed. -/
def removeLatestEntryOnDate (fs : FS) (path : String) (targetDate : Str) : Option (Bool × FS) :=
  match LittleFS.openFile fs path OpenMode.read with
  | none => some (false, fs)
  | some (_, fs1) =>
    match LittleFS.openFile fs1 tempPath OpenMode.write with
    | none => some (false, fs1)
    | some (_, fs2) =>
      let file := (fs2.files path).getD []
      match removeLatestLoop targetDate file.length file [] false with
      | none => none
      | some tempFile =>
        let fs3 := fs2.store tempPath (some tempFile)
        let fs4 := LittleFS.remove fs3 path
        let fs5 := LittleFS.rename fs4 tempPath path
        some (true, fs5)

/-- The `while (file.available())` loop of `removeLinesWithDate`. -/
def removeLinesLoop (inputDate : Str) (fuel : Nat) (file modifiedContent : Str) : Option Str :=
  if file.isEmpty then some modifiedContent
  else
    match fuel with
    | 0 => none
    | fuel + 1 =>
      let line := (readStringUntil '\n' file).1
      let rest := (readStringUntil '\n' file).2
      if line.length = 0 ∨ startsWith line headerTag = true then
        removeLinesLoop inputDate fuel rest (modifiedContent ++ line ++ ['\n'])
      else
        let firstCommaIdx := indexOf line ','
        if firstCommaIdx = -1 then
          removeLinesLoop inputDate fuel rest modifiedContent
        else
          let secondCommaIdx := indexOfFrom line ',' (toUnsigned (firstCommaIdx + 1))
          if secondCommaIdx = -1 then
            removeLinesLoop inputDate fuel rest modifiedContent
          else
            let date := trim (substring line (toUnsigned (firstCommaIdx + 1))
              (toUnsigned secondCommaIdx))
            if date ≠ inputDate then
              removeLinesLoop inputDate fuel rest (modifiedContent ++ line ++ ['\n'])
            else
              removeLinesLoop inputDate fuel rest modifiedContent

/-- `removeLinesWithDate(path, inputDate)`: result flag and volume afterwards
(`none` only if the loop ran out of fuel). -/
def removeLinesWithDate (fs : FS) (path : String) (inputDate : Str) : Option (Bool × FS) :=
  match LittleFS.openFile fs path OpenMode.read with
  | none => some (false, fs)
  | some (file, fs1) =>
    match removeLinesLoop inputDate file.length file [] with
    | none => none
    | some modifiedContent =>
      match LittleFS.openFile fs1 path OpenMode.write with
      | none => some (false, fs1)
      | some (_, fs2) => some (true, fs2.store path (some modifiedContent))

/-- `clearFile(path)`. -/
def clearFile (fs : FS) (path : String) : Bool × FS :=
  match LittleFS.openFile fs path OpenMode.write with
  | none => (false, fs)
  | some (_, fs1) => (true, fs1)

/-- What a `const char*` that `readCsvFile` returns points to. -/
inductive CString where
  /-- a string literal with this text -/
  | literal (text : Str)
  /-- the buffer of a local `String` that was destroyed when the function returned:
  every use of the pointer is undefined -/
  | dangling
  deriving DecidableEq, Repr

/-- `readCsvFile(fs, path)`: the literal `""` when the file cannot be opened; otherwise
`fileContent.c_str()`, where `fileContent` is a local `String` that is destroyed at the
`return`, whether or not the loop read anything into it. -/
def readCsvFile (fs : FS) (path : String) : CString :=
  match LittleFS.openFile fs path OpenMode.read with
  | none => CString.literal []
  | some _ => CString.dangling

/-! ## Date aggregator -/

/-- The constant `MAX_DATES` of `countDates`. -/
def MAX_DATES : Nat := 50

/-- How a run of `countDates` ends. -/
inductive Outcome (α : Type) where
  /-- the function returns this value -/
  | ok : α → Outcome α
  /-- an element of `dates`/`counts` at an index `≥ MAX_DATES` is accessed:
  undefined behaviour in C++ -/
  | outOfBounds : Outcome α
  /-- the model ran out of fuel (never happens with the fuel `countDates` passes) -/
  | outOfFuel : Outcome α
  deriving DecidableEq, Repr

/-- The locals `dates`, `counts` and `uniqueDateCount` of `countDates`
(the arrays as functions of the index; every access is bound-checked by the model).
A count never exceeds the number of lines of the text, so for a text that 32-bit
indexes can address the `int` increments do not overflow. -/
structure DateTable where
  dates : Nat → Str
  counts : Nat → Nat
  uniqueDateCount : Nat

/-- The locals as declared: `String dates[MAX_DATES]`, `int counts[MAX_DATES] = {0}`,
`uniqueDateCount = 0`. -/
def DateTable.init : DateTable :=
  { dates := fun _ => [], counts := fun _ => 0, uniqueDateCount := 0 }

/-- The `for (int i = 0; i < uniqueDateCount; i++)` search of `countDates`, started at
index `i` with `remaining = uniqueDateCount - i` iterations to go: the table after the
loop and the flag `found`. -/
def searchDates (date : Str) (t : DateTable) : Nat → Nat → Outcome (DateTable × Bool)
  | 0, _ => Outcome.ok (t, false)
  | remaining + 1, i =>
    if i < MAX_DATES then
      if t.dates i = date then
        Outcome.ok ({ t with counts := Function.update t.counts i (t.counts i + 1) }, true)
      else searchDates date t remaining (i + 1)
    else Outcome.outOfBounds

/-- The date expression of `countDates`: `line.substring(commaIdx + 1, secondCommaIdx)` with
`commaIdx = line.indexOf(',')` and `secondCommaIdx = line.indexOf(",", commaIdx + 1)`. -/
def countDatesDate (line : Str) : Str :=
  let commaIdx := indexOf line ','
  let secondCommaIdx := indexOfStrFrom line [','] (toUnsigned (commaIdx + 1))
  substring line (toUnsigned (commaIdx + 1)) (toUnsigned secondCommaIdx)

/-- What one iteration of the `while (true)` loop of `countDates` does with a `line`
that is neither empty nor a header: look the date up, then count or add it. -/
def recordDate (t : DateTable) (line : Str) : Outcome DateTable :=
  let date := countDatesDate line
  match searchDates date t t.uniqueDateCount 0 with
  | Outcome.ok (t1, found) =>
    if found then Outcome.ok t1
    else if t1.uniqueDateCount < MAX_DATES then
      Outcome.ok
        { dates := Function.update t1.dates t1.uniqueDateCount date,
          counts := Function.update t1.counts t1.uniqueDateCount 1,
          uniqueDateCount := t1.uniqueDateCount + 1 }
    else Outcome.outOfBounds
  | Outcome.outOfBounds => Outcome.outOfBounds
  | Outcome.outOfFuel => Outcome.outOfFuel

/-- The `while (true)` loop of `countDates`. -/
def countDatesLoop (csvString : Str) : Nat → Int → DateTable → Outcome DateTable
  | 0, _, _ => Outcome.outOfFuel
  | fuel + 1, startIdx, t =>
    let lineEndIdx := indexOfFrom csvString '\n' (toUnsigned startIdx)
    if lineEndIdx = -1 then Outcome.ok t
    else
      let line := substring csvString (toUnsigned startIdx) (toUnsigned lineEndIdx)
      let startIdx1 := lineEndIdx + 1
      if line.length = 0 ∨ startsWith line headerTag = true then
        countDatesLoop csvString fuel startIdx1 t
      else
        match recordDate t line with
        | Outcome.ok t1 => countDatesLoop csvString fuel startIdx1 t1
        | Outcome.outOfBounds => Outcome.outOfBounds
        | Outcome.outOfFuel => Outcome.outOfFuel

/-- A `JsonDocument` holding an object with integer members, in member order. -/
abbrev JsonObject := List (Str × Nat)

/-- The assignment `jsonDoc[key] = value`: replaces the member when the key is present,
adds it at the end otherwise. -/
def jsonSet : JsonObject → Str → Nat → JsonObject
  | [], key, value => [(key, value)]
  | (k, v) :: rest, key, value =>
    if k = key then (k, value) :: rest else (k, v) :: jsonSet rest key value

/-- The `for (int i = 0; i < uniqueDateCount; i++) jsonDoc[dates[i]] = counts[i];` loop,
started at index `i` with `remaining` iterations to go. -/
def toJson (t : DateTable) : Nat → Nat → JsonObject → Outcome JsonObject
  | 0, _, jsonDoc => Outcome.ok jsonDoc
  | remaining + 1, i, jsonDoc =>
    if i < MAX_DATES then toJson t remaining (i + 1) (jsonSet jsonDoc (t.dates i) (t.counts i))
    else Outcome.outOfBounds

/-- `countDates(csv)`: the members of the JSON object that is serialised and returned. -/
def countDates (csv : Str) : Outcome JsonObject :=
  match countDatesLoop csv (csv.length + 1) 0 DateTable.init with
  | Outcome.ok t => toJson t t.uniqueDateCount 0 []
  | Outcome.outOfBounds => Outcome.outOfBounds
  | Outcome.outOfFuel => Outcome.outOfFuel

/-- The handler of `GET /get-data`: `countDates(readCsvFile(LittleFS, csvPath))`; `none`
when `countDates` is handed a dangling pointer. -/
def getData (fs : FS) : Option (Outcome JsonObject) :=
  match readCsvFile fs csvPath with
  | CString.literal text => some (countDates text)
  | CString.dangling => none

/-! ## Touch monitor -/

/-- The fields of `struct tm` the program formats. -/
structure Tm where
  tm_year : Nat
  tm_mon : Nat
  tm_mday : Nat
  tm_hour : Nat
  tm_min : Nat

/-- The decimal digit character of `n % 10`. -/
def digitChar (n : Nat) : Char := Char.ofNat (48 + n % 10)

/-- The decimal digits of `n`, most significant first, at most `fuel + 1` of them. -/
def decimalAux : Nat → Nat → Str
  | 0, n => [digitChar n]
  | fuel + 1, n => if n < 10 then [digitChar n] else decimalAux fuel (n / 10) ++ [digitChar n]

/-- A number in decimal, as the `strftime` conversion `%Y` prints the year. -/
def decimal (n : Nat) : Str := decimalAux n n

/-- The `strftime` conversions `%H`, `%M`, `%m` and `%d`: the number in decimal, with a
leading zero when it has one digit. -/
def twoDigits (n : Nat) : Str := if n < 10 then ['0', digitChar n] else decimal n

/-- Four decimal digits of a number, with leading zeros. -/
def fourDigits (n : Nat) : Str :=
  [digitChar (n / 1000), digitChar (n / 100), digitChar (n / 10), digitChar n]

/-- `strftime(buffer, maxsize, format, &timeInfo)` followed by `String(buffer)`, for a
format that expands to `text`: the text when it fits the buffer with its terminating
NUL; otherwise `strftime` returns 0, which the program ignores, and the contents of the
uninitialised buffer are indeterminate (`none`). -/
def strftime (maxsize : Nat) (text : Str) : Option Str :=
  if text.length < maxsize then some text else none

/-- `getTime(timeInfo)`: `strftime` with `"%H:%M"` into `char timeStr[6]`. -/
def getTime (timeInfo : Tm) : Option Str :=
  strftime 6 (twoDigits timeInfo.tm_hour ++ [':'] ++ twoDigits timeInfo.tm_min)

/-- `getDate(timeInfo)`: `strftime` with `"%Y/%m/%d"` into `char dateStr[11]`. -/
def getDate (timeInfo : Tm) : Option Str :=
  strftime 11 (decimal (timeInfo.tm_year + 1900) ++ ['/'] ++ twoDigits (timeInfo.tm_mon + 1) ++
    ['/'] ++ twoDigits timeInfo.tm_mday)

/-- The year of a broken-down time has at most four digits and its month, day, hour and
minute at most two, so that its date and time fit the buffers of `getDate` and `getTime`. -/
def Tm.fitsBuffers (timeInfo : Tm) : Bool :=
  decide (timeInfo.tm_year + 1900 < 10000) && decide (timeInfo.tm_mon + 1 < 100) &&
    decide (timeInfo.tm_mday < 100) && decide (timeInfo.tm_hour < 100) &&
    decide (timeInfo.tm_min < 100)

/-- The global `threshold`. -/
def threshold : Int := 20

/-- The globals the control loop uses, the volume, and (for stating properties only) the
arguments of every `appendToCSV` call made so far, oldest first. -/
structure Device where
  isTouched : Bool
  isConnectedWiFi : Bool
  fs : FS
  appendCalls : List (Str × Str)

/-- What one iteration reads from the outside: `touchRead(touchPin)` and what
`getLocalTime` would give (`none` when it fails). -/
structure Reading where
  touchValue : Int
  localTime : Option Tm

/-- `onTouch()`: the device afterwards; `none` when the date or the time did not fit its
buffer, so that `appendToCSV` is called with indeterminate text. -/
def onTouch (d : Device) (localTime : Option Tm) : Option Device :=
  if d.isTouched then some d
  else
    match localTime with
    | none => some d
    | some timeInfo =>
      match getDate timeInfo, getTime timeInfo with
      | some date, some time =>
        some { d with
          fs := (appendToCSV d.fs csvPath date time).2,
          appendCalls := d.appendCalls ++ [(date, time)] }
      | _, _ => none

/-- One iteration of `loop()`, on the reading it takes. -/
def loop (d : Device) (r : Reading) : Option Device :=
  if d.isConnectedWiFi = false then some d
  else if r.touchValue < threshold then
    match onTouch d r.localTime with
    | some d1 => some { d1 with isTouched := true }
    | none => none
  else if r.touchValue > threshold then
    some { d with isTouched := false }
  else some d

/-- Successive iterations of `loop()` over a sequence of readings. -/
def runLoop (d : Device) : List Reading → Option Device
  | [] => some d
  | r :: rs =>
    match loop d r with
    | some d1 => runLoop d1 rs
    | none => none

/-! ## Notions the properties are stated with -/

/-- The lines `readStringUntil` yields while the file has unread characters:
the text split at each newline, a final piece without newline included. -/
def fileLines : Str → List Str
  | [] => []
  | c :: cs =>
    if c = '\n' then [] :: fileLines cs
    else
      match fileLines cs with
      | [] => [[c]]
      | l :: ls => (c :: l) :: ls

/-- The newline-terminated lines of a text; what follows the last newline is no line. -/
def csvLines : Str → List Str
  | [] => []
  | c :: cs =>
    if c = '\n' then [] :: csvLines cs
    else
      match csvLines cs with
      | [] => []
      | l :: ls => (c :: l) :: ls

/-- The number of commas in a line. -/
def commaCount (line : Str) : Nat := line.count ','

/-- The text between the first and the second comma of a line. -/
def dateField (line : Str) : Str :=
  ((line.dropWhile (fun c => c != ',')).drop 1).takeWhile (fun c => c != ',')

/-- Print each line followed by CR LF, in order. -/
def printlnAll : List Str → Str
  | [] => []
  | l :: ls => println l ++ printlnAll ls

/-- Each line followed by a newline, in order. -/
def unlines : List Str → Str
  | [] => []
  | l :: ls => l ++ ['\n'] ++ unlines ls

/-- A text matches a format when it has the format's length, shows a decimal digit
wherever the format has `9`, and the format's own character elsewhere. -/
def matchesFormat : List Char → Str → Bool
  | [], [] => true
  | p :: ps, c :: cs => (if p = '9' then c.isDigit else c == p) && matchesFormat ps cs
  | _, _ => false

/-- A date in the format `YYYY/MM/DD`. -/
def isDate (s : Str) : Bool := matchesFormat "9999/99/99".toList s

/-- A time in the format `HH:MM`. -/
def isTime (s : Str) : Bool := matchesFormat "99:99".toList s

/-- Successive `appendToCSV` calls on one path, one per (date, time) pair: whether all
of them returned true, and the volume afterwards. -/
def appendAll (fs : FS) (path : String) : List (Str × Str) → Bool × FS
  | [] => (true, fs)
  | e :: es =>
    let r := appendToCSV fs path e.1 e.2
    let rs := appendAll r.2 path es
    (r.1 && rs.1, rs.2)

/-- A volume without files on which every open is served. -/
def emptyVolume : FS := { files := fun _ => none, fault := fun _ _ => false }

/-- A volume holding only the log, with the given content, on which every open is served. -/
def volumeWith (content : Str) : FS :=
  { files := fun p => if p = csvPath then some content else none, fault := fun _ _ => false }

/-- A volume holding only the log, on which every open is refused. -/
def faultyVolume (content : Str) : FS :=
  { files := fun p => if p = csvPath then some content else none, fault := fun _ _ => true }

/-- The data lines `appendToCSV` writes for a sequence of (date, time) pairs. -/
def dataLines (es : List (Str × Str)) : List Str := es.map (fun e => dataLine e.1 e.2)

/-- A text is terminated when it is empty or its last character is a newline. -/
def isTerminated : Str → Bool
  | [] => true
  | [c] => c == '\n'
  | _ :: c :: cs => isTerminated (c :: cs)

/-- A log with a header, a blank line, a line without second comma, a last line
without newline, and date fields with and without blanks around them. -/
def mixedLog : Str :=
  "customer,date,time\r\n1,2024/01/01,09:00\r\n\n1, 2024/01/02 ,x\nbad,line\n1,2024/01/02,08:00".toList

/-- A connected device that is not being touched, with an empty volume. -/
def idleDevice : Device :=
  { isTouched := false, isConnectedWiFi := true, fs := emptyVolume, appendCalls := [] }

/-- A reading of the given touch value taken on 2024/01/01 at the given minute past nine. -/
def readingAt (touchValue : Int) (minute : Nat) : Reading :=
  { touchValue := touchValue,
    localTime := some { tm_year := 124, tm_mon := 0, tm_mday := 1, tm_hour := 9, tm_min := minute } }

/-- The (date, time) pairs of `n` touches at 09:00 on the first of January of the years
2000, 2001, ... : `n` different dates. -/
def yearlyTouches (n : Nat) : List (Str × Str) :=
  (List.range n).map (fun i => (fourDigits (2000 + i) ++ "/01/01".toList, "09:00".toList))

/-- The (date, time) pairs of the specification's example. -/
def exampleTouches : List (Str × Str) :=
  [("2024/01/01".toList, "09:00".toList), ("2024/01/01".toList, "10:15".toList),
   ("2024/01/02".toList, "08:00".toList)]

/-- The log the three appends of the specification's example write. -/
def exampleLog : Str :=
  "customer,date,time\r\n1,2024/01/01,09:00\r\n1,2024/01/01,10:15\r\n1,2024/01/02,08:00\r\n".toList

/-- The count a JSON object reports for a date: the member's value, `none` without member. -/
def reported (o : JsonObject) (date : Str) : Option Nat := o.lookup date

/-- Whether the loop body of `removeLinesWithDate` copies a line to `modifiedContent`
(the tests of the body, in the order the body makes them). -/
def copiesLine (inputDate line : Str) : Bool :=
  if line.length = 0 ∨ startsWith line headerTag = true then true
  else if indexOf line ',' = -1 then false
  else if indexOfFrom line ',' (toUnsigned (indexOf line ',' + 1)) = -1 then false
  else
    decide (trim (substring line (toUnsigned (indexOf line ',' + 1))
      (toUnsigned (indexOfFrom line ',' (toUnsigned (indexOf line ',' + 1))))) ≠ inputDate)

/-- A line is retained by a removal of `inputDate` when it is empty, or starts with
"customer", or has at least two commas and a trimmed date field other than `inputDate`. -/
def retained (inputDate line : Str) : Bool :=
  line.isEmpty || startsWith line headerTag ||
    (decide (2 ≤ commaCount line) && decide (trim (dateField line) ≠ inputDate))

/-- A line takes part in the aggregation when it is neither empty nor starts with "customer". -/
def isCounted (line : Str) : Bool := !(line.isEmpty || startsWith line headerTag)

/-- The `while (true)` loop of `countDates` seen line by line. -/
def tallyLines : DateTable → List Str → Outcome DateTable
  | t, [] => Outcome.ok t
  | t, line :: rest =>
    if line.length = 0 ∨ startsWith line headerTag = true then tallyLines t rest
    else
      match recordDate t line with
      | Outcome.ok t1 => tallyLines t1 rest
      | Outcome.outOfBounds => Outcome.outOfBounds
      | Outcome.outOfFuel => Outcome.outOfFuel

/-- The used part of the table, entries `i .. i + n - 1`, as (date, count) pairs. -/
def DateTable.entriesFrom (t : DateTable) (i n : Nat) : JsonObject :=
  (List.range' i n).map (fun j => (t.dates j, t.counts j))

/-- The used part of the table as (date, count) pairs. -/
def DateTable.entries (t : DateTable) : JsonObject := t.entriesFrom 0 t.uniqueDateCount

/-- Add one to the count of the first pair with this date; `none` without such a pair. -/
def incr (date : Str) : JsonObject → Option JsonObject
  | [] => none
  | (d, n) :: rest =>
    if d = date then some ((d, n + 1) :: rest) else (incr date rest).map (fun r => (d, n) :: r)

/-- Count one more occurrence of a date: add one to its pair, or add the pair
`(date, 1)` at the end. -/
def bump (o : JsonObject) (date : Str) : JsonObject :=
  match incr date o with
  | some o1 => o1
  | none => o ++ [(date, 1)]

/-- The pairs (date, number of occurrences) of a list of dates, in order of first occurrence. -/
def tally (dates : List Str) : JsonObject := dates.foldl bump []

/-- The dates `countDates` aggregates from a text, in line order. -/
def countedDates (csv : Str) : List Str := ((csvLines csv).filter isCounted).map countDatesDate

/-! ## Provisioning store and startup -/

/-- The global `ssidPath`. -/
def ssidPath : String := "/ssid.txt"

/-- The global `passPath`. -/
def passPath : String := "/pass.txt"

/-- `readConfigFiles(fs, path)`: the first line of the file without its newline, or
the empty String when the file cannot be opened or has no characters. -/
def readConfigFiles (fs : FS) (path : String) : Str :=
  match LittleFS.openFile fs path OpenMode.read with
  | none => []
  | some (file, _) => if file.isEmpty then [] else (readStringUntil '\n' file).1

/-- The calls to the WiFi driver the startup code makes. -/
inductive WiFiCall where
  /-- the call `WiFi.mode(WIFI_STA)` -/
  | mode
  /-- the call `WiFi.config(localIP, localGateway, subnet)` -/
  | config
  /-- the call `WiFi.begin(ssid.c_str(), pass.c_str())` -/
  | begin (ssid pass : Str)
  /-- the call `WiFi.softAP("RasmusW-Wifi-Manager", NULL)` -/
  | softAP
  deriving DecidableEq, Repr

/-- What the WiFi driver and the clock answer during `initWiFi`: the result of
`WiFi.config`, whether `WiFi.status()` is `WL_CONNECTED` at the n-th poll, and the value
of the n-th `millis()` call. -/
structure WiFiEnv where
  configOk : Bool
  connectedAt : Nat → Bool
  millisAt : Nat → Nat

/-- The globals the startup code uses, and (for stating properties only) the WiFi driver
calls made so far, oldest first. -/
structure Globals where
  ssid : Str
  pass : Str
  isConnectedWiFi : Bool
  previousMillis : Nat
  wifiCalls : List WiFiCall
  deriving DecidableEq, Repr

/-- The global `interval`. -/
def interval : Nat := 10000

/-- The `while (WiFi.status() != WL_CONNECTED)` loop of `initWiFi` from its n-th poll on:
true when the loop is left connected, false when it returns on the timeout; the
`unsigned long` difference is taken modulo 2^32. -/
def waitForConnection (env : WiFiEnv) (previousMillis : Nat) : Nat → Nat → Option Bool
  | 0, _ => none
  | fuel + 1, n =>
    if env.connectedAt n then some true
    else
      let currentMillis := env.millisAt (n + 1) % 4294967296
      if (currentMillis + 4294967296 - previousMillis) % 4294967296 ≥ interval then some false
      else waitForConnection env previousMillis fuel (n + 1)

/-- `initWiFi()`: the result and the globals afterwards (`none` only if the wait loop
ran out of fuel). -/
def initWiFi (env : WiFiEnv) (fuel : Nat) (g : Globals) : Option (Bool × Globals) :=
  if g.ssid = [] then some (false, g)
  else
    let g1 := { g with wifiCalls := g.wifiCalls ++ [WiFiCall.mode, WiFiCall.config] }
    if env.configOk = false then some (false, g1)
    else
      let g2 := { g1 with
        wifiCalls := g1.wifiCalls ++ [WiFiCall.begin g.ssid g.pass],
        previousMillis := env.millisAt 0 % 4294967296 }
      match waitForConnection env g2.previousMillis fuel 0 with
      | none => none
      | some false => some (false, g2)
      | some true => some (true, { g2 with isConnectedWiFi := true })

/-- The branch of `if (initWiFi())` that `setup` takes. -/
inductive Branch where
  /-- the branch that configures the time and serves the data routes -/
  | station
  /-- the `else` branch that starts the access point and serves the WiFi manager -/
  | accessPoint
  deriving DecidableEq, Repr

/-- `setup()` up to the choice of its branch: the credentials are read, `initWiFi` runs,
and the `else` branch starts the access point; the routes either branch registers are
not modelled. -/
def setup (env : WiFiEnv) (fuel : Nat) (fs : FS) (g : Globals) : Option (Branch × Globals) :=
  let g1 := { g with ssid := readConfigFiles fs ssidPath, pass := readConfigFiles fs passPath }
  match initWiFi env fuel g1 with
  | none => none
  | some (true, g2) => some (Branch.station, g2)
  | some (false, g2) =>
    some (Branch.accessPoint, { g2 with wifiCalls := g2.wifiCalls ++ [WiFiCall.softAP] })

/-- The globals as initialised at their declaration. -/
def Globals.init : Globals :=
  { ssid := [], pass := [], isConnectedWiFi := false, previousMillis := 0, wifiCalls := [] }

/-- A volume holding the two credential files with the given contents. -/
def credentialVolume (ssidFile passFile : Str) : FS :=
  { files := fun p =>
      if p = ssidPath then some ssidFile else if p = passPath then some passFile else none,
    fault := fun _ _ => false }

/-- An environment in which `WiFi.config` succeeds and the station is connected at the
first poll. -/
def promptEnv : WiFiEnv :=
  { configOk := true, connectedAt := fun _ => true, millisAt := fun n => 100 * n }

/-! ## Further notions the properties are stated with -/

/-- The lines `countDates` processes: the newline-terminated lines that are neither
empty nor start with "customer". -/
def processedLines (csv : Str) : List Str := (csvLines csv).filter isCounted

/-- The position of the first occurrence of a date in a list of dates (the length of
the list when it does not occur). -/
def firstIndex (d : Str) : List Str → Nat
  | [] => 0
  | x :: xs => if x = d then 0 else firstIndex d xs + 1

/-- A call of one of the four log operations on `csvPath`, or a change of what the
storage refuses between two calls. -/
inductive LogOp where
  /-- the call `appendToCSV(csvPath, date, time)` -/
  | append (date time : Str)
  /-- the call `removeLatestEntryOnDate(csvPath, date)` -/
  | removeLatest (date : Str)
  /-- the call `removeLinesWithDate(csvPath, date)` -/
  | removeLines (date : Str)
  /-- the call `clearFile(csvPath)` -/
  | clear
  /-- from now on the storage refuses the opens `fault` marks -/
  | storage (fault : String → OpenMode → Bool)

/-- The date and time arguments of a call are in the formats `YYYY/MM/DD` and `HH:MM`. -/
def LogOp.inFormat : LogOp → Bool
  | LogOp.append date time => isDate date && isTime time
  | LogOp.removeLatest date => isDate date
  | LogOp.removeLines date => isDate date
  | LogOp.clear => true
  | LogOp.storage _ => true

/-- The volume after one call. -/
def applyOp (fs : FS) : LogOp → FS
  | LogOp.append date time => (appendToCSV fs csvPath date time).2
  | LogOp.removeLatest date =>
    match removeLatestEntryOnDate fs csvPath date with
    | some r => r.2
    | none => fs
  | LogOp.removeLines date =>
    match removeLinesWithDate fs csvPath date with
    | some r => r.2
    | none => fs
  | LogOp.clear => (clearFile fs csvPath).2
  | LogOp.storage fault => { files := fs.files, fault := fault }

/-- The volume after a sequence of calls. -/
def runOps (fs : FS) (ops : List LogOp) : FS := ops.foldl applyOp fs

/-- A line is the given text followed only by carriage returns. -/
def IsUpToCR (text line : Str) : Prop := ∃ k : Nat, line = text ++ List.replicate k '\r'

/-- The shape of a log: absent, empty, or a header line followed by data lines that
`appendToCSV` wrote for dates and times in their formats, each line followed by a
newline and each carrying only carriage returns after its text. -/
def LogShape (log : Option Str) : Prop :=
  log = none ∨ log = some [] ∨
    ∃ h ls, log = some (unlines (h :: ls)) ∧ IsUpToCR csvHeader h ∧
      ∀ l ∈ ls, ∃ d t, isDate d = true ∧ isTime t = true ∧ IsUpToCR (dataLine d t) l

/-- Three data lines, each ended by CR LF. -/
def orderedLog : Str :=
  "1,2024/01/01,09:00\r\n1,2024/01/02,08:00\r\n1,2024/01/01,10:15\r\n".toList

/-- The lines of `orderedLog` in another order. -/
def shuffledLog : Str :=
  "1,2024/01/02,08:00\r\n1,2024/01/01,10:15\r\n1,2024/01/01,09:00\r\n".toList

/-- The log of 49 appends with 49 different dates, followed by two lines without comma. -/
def garbageLog : Str :=
  printlnAll (csvHeader :: dataLines (yearlyTouches 49)) ++ "garbageA\ngarbageB\n".toList

/-- The log of 50 appends with 50 different dates, followed by a data line with one more
date and no newline after it. -/
def tailLog : Str :=
  printlnAll (csvHeader :: dataLines (yearlyTouches 50)) ++ "1,2050/01/01,09:00".toList

/-! ## Lemmas on the primitives, the loops and the table -/

theorem toUnsigned_natCast (n : Nat) (h : n < 4294967296) : toUnsigned (n : Int) = n := by
  unfold toUnsigned
  have : ((n : Int) % 4294967296) = (n : Int) := Int.emod_eq_of_lt (by omega) (by omega)
  rw [this]; simp

theorem toUnsigned_neg_one : toUnsigned (-1) = 4294967295 := by decide

theorem toUnsigned_lt (i : Int) : toUnsigned i < 4294967296 := by
  unfold toUnsigned
  have h1 : 0 ≤ i % 4294967296 := Int.emod_nonneg _ (by decide)
  have h2 : i % 4294967296 < 4294967296 := Int.emod_lt_of_pos _ (by decide)
  omega

theorem strchr_eq (s : Str) (ch : Char) :
    strchr s ch = if ch ∈ s then some (s.takeWhile (fun c => c != ch)).length else none := by
  induction s with
  | nil => simp [strchr]
  | cons c cs ih =>
    by_cases h : c = ch
    · subst h; simp [strchr]
    · have h2 : ¬ ch = c := fun e => h e.symm
      simp [strchr, h, h2, ih, List.takeWhile_cons]

theorem strstr_singleton (s : Str) (ch : Char) : strstr s [ch] = strchr s ch := by
  induction s with
  | nil => simp [strstr, strchr]
  | cons c cs ih =>
    by_cases h : c = ch
    · subst h; simp [strstr, strchr, List.isPrefixOf]
    · have h2 : ¬ ch = c := fun e => h e.symm
      simp [strstr, strchr, List.isPrefixOf, h, h2, ih]

theorem indexOfStrFrom_singleton (s : Str) (ch : Char) (n : Nat) :
    indexOfStrFrom s [ch] n = indexOfFrom s ch n := by
  simp [indexOfStrFrom, indexOfFrom, strstr_singleton]

theorem indexOfFrom_eq (s : Str) (ch : Char) (n : Nat) :
    indexOfFrom s ch n =
      if ch ∈ s.drop n then ((n + ((s.drop n).takeWhile (fun c => c != ch)).length : Nat) : Int)
      else -1 := by
  unfold indexOfFrom
  by_cases h : n ≥ s.length
  · have : s.drop n = [] := List.drop_eq_nil_of_le h
    simp [h, this]
  · rw [if_neg h, strchr_eq]
    by_cases hm : ch ∈ s.drop n
    · simp [hm]
    · simp [hm]

theorem substring_eq (s : Str) (lo hi : Nat) (h : lo ≤ hi) :
    substring s lo hi = (s.drop lo).take (hi - lo) := by
  unfold substring
  have h1 : ¬ lo > hi := by omega
  simp only [h1, if_false]
  by_cases h2 : lo ≥ s.length
  · simp [h2, List.drop_eq_nil_of_le h2]
  · simp only [h2, if_false]
    by_cases h3 : hi > s.length
    · simp only [h3, if_true]
      rw [List.take_of_length_le (by simp), List.take_of_length_le (by simp; omega)]
    · simp [h3]

theorem drop_length_takeWhile (f : Char → Bool) (l : Str) :
    l.drop (l.takeWhile f).length = l.dropWhile f := by
  induction l with
  | nil => simp
  | cons c cs ih =>
    by_cases h : f c
    · simp [List.takeWhile_cons, List.dropWhile_cons, h, ih]
    · simp [List.takeWhile_cons, List.dropWhile_cons, h]

theorem take_length_takeWhile (f : Char → Bool) (l : Str) :
    l.take (l.takeWhile f).length = l.takeWhile f := by
  induction l with
  | nil => simp
  | cons c cs ih =>
    by_cases h : f c
    · simp [List.takeWhile_cons, h, ih]
    · simp [List.takeWhile_cons, h]

theorem length_takeWhile_le (f : Char → Bool) (l : Str) : (l.takeWhile f).length ≤ l.length := by
  induction l with
  | nil => simp
  | cons c cs ih =>
    by_cases h : f c
    · simp [List.takeWhile_cons, h]; omega
    · simp [List.takeWhile_cons, h]

theorem takeWhile_ne_of_not_mem (ch : Char) (l : Str) (h : ch ∉ l) :
    l.takeWhile (fun c => c != ch) = l := by
  induction l with
  | nil => simp
  | cons c cs ih =>
    have h1 : c ≠ ch := fun e => h (by simp [e])
    have h2 : ch ∉ cs := fun e => h (by simp [e])
    simp [List.takeWhile_cons, h1, ih h2]

theorem length_takeWhile_lt_of_mem (ch : Char) (l : Str) (h : ch ∈ l) :
    (l.takeWhile (fun c => c != ch)).length < l.length := by
  induction l with
  | nil => simp at h
  | cons c cs ih =>
    by_cases h1 : c = ch
    · simp [List.takeWhile_cons, h1]
    · have h2 : ch ∈ cs := by
        rcases List.mem_cons.1 h with e | e
        · exact absurd e.symm h1
        · exact e
      simp [List.takeWhile_cons, h1]
      exact ih h2

theorem mem_dropWhile_ne (ch : Char) (l : Str) : ch ∈ l.dropWhile (fun c => c != ch) ↔ ch ∈ l := by
  induction l with
  | nil => simp
  | cons c cs ih =>
    by_cases h1 : c = ch
    · simp [List.dropWhile_cons, h1]
    · have h2 : ¬ ch = c := fun e => h1 e.symm
      simp [List.dropWhile_cons, h1, h2, ih]

theorem extractDate_eq (line : Str) (h : line.length < 2147483648) :
    extractDate line = if ',' ∈ line then dateField line else line := by
  unfold extractDate indexOf
  simp only [indexOfFrom_eq, List.drop_zero, Nat.zero_add]
  by_cases hc : ',' ∈ line
  · have hk := length_takeWhile_lt_of_mem ',' line hc
    simp only [hc, if_true]
    have e1 : ((List.takeWhile (fun c => c != ',') line).length : Int) + 1 =
        (((List.takeWhile (fun c => c != ',') line).length + 1 : Nat) : Int) := by simp
    rw [e1, toUnsigned_natCast _ (by omega)]
    have e2 : line.drop ((List.takeWhile (fun c => c != ',') line).length + 1) =
        (line.dropWhile (fun c => c != ',')).drop 1 := by
      rw [← drop_length_takeWhile, List.drop_drop]
    rw [e2]
    unfold dateField
    generalize hafter : (line.dropWhile (fun c => c != ',')).drop 1 = after at *
    have hlen : (List.takeWhile (fun c => c != ',') line).length + 1 + after.length = line.length := by
      rw [← e2, List.length_drop]; omega
    by_cases hc2 : ',' ∈ after
    · have hj := length_takeWhile_lt_of_mem ',' after hc2
      simp only [hc2, if_true]
      rw [toUnsigned_natCast _ (by omega), substring_eq _ _ _ (by omega), e2]
      rw [Nat.add_sub_cancel_left, take_length_takeWhile]
    · simp only [hc2, if_false]
      rw [toUnsigned_neg_one, substring_eq _ _ _ (by omega), e2]
      rw [List.take_of_length_le (by omega), takeWhile_ne_of_not_mem _ _ hc2]
  · simp only [hc, if_false]
    have : toUnsigned (-1 + 1) = 0 := by decide
    rw [this]
    simp only [List.drop_zero, hc, if_false]
    rw [toUnsigned_neg_one, substring_eq _ _ _ (by omega)]
    simp
    omega

theorem countDatesDate_eq (line : Str) : countDatesDate line = extractDate line := by
  simp [countDatesDate, extractDate, indexOfStrFrom_singleton]

theorem fileLines_eq (file : Str) (h : file ≠ []) :
    fileLines file = (readStringUntil '\n' file).1 :: fileLines (readStringUntil '\n' file).2 := by
  induction file with
  | nil => exact absurd rfl h
  | cons c cs ih =>
    by_cases hc : c = '\n'
    · simp [fileLines, readStringUntil, hc]
    · cases cs with
      | nil => simp [fileLines, readStringUntil, hc]
      | cons c2 cs2 =>
        have := ih (by simp)
        simp only [fileLines, readStringUntil, hc, if_false] at this ⊢
        rw [this]

theorem readStringUntil_length (t : Char) (file : Str) (h : file ≠ []) :
    (readStringUntil t file).2.length < file.length := by
  induction file with
  | nil => exact absurd rfl h
  | cons c cs ih =>
    by_cases hc : c = t
    · simp [readStringUntil, hc]
    · cases cs with
      | nil => simp [readStringUntil, hc]
      | cons c2 cs2 =>
        have := ih (by simp)
        simp only [readStringUntil, hc, if_false, List.length_cons] at this ⊢
        omega

theorem length_le_of_mem_fileLines (s : Str) : ∀ l ∈ fileLines s, l.length ≤ s.length := by
  induction s with
  | nil => simp [fileLines]
  | cons c cs ih =>
    intro l hl
    by_cases hc : c = '\n'
    · simp only [fileLines, hc, if_true, List.mem_cons] at hl
      rcases hl with e | e
      · simp [e]
      · have := ih l e; simp; omega
    · simp only [fileLines, hc, if_false] at hl
      cases hf : fileLines cs with
      | nil => rw [hf] at hl; simp at hl; simp [hl]
      | cons l1 ls =>
        rw [hf] at hl
        simp only [List.mem_cons] at hl
        rcases hl with e | e
        · have := ih l1 (by simp [hf]); simp [e]; omega
        · have := ih l (by simp [hf, e]); simp; omega

theorem csvLines_eq (s : Str) :
    csvLines s =
      if '\n' ∈ s then
        s.takeWhile (fun c => c != '\n') :: csvLines ((s.dropWhile (fun c => c != '\n')).drop 1)
      else [] := by
  induction s with
  | nil => simp [csvLines]
  | cons c cs ih =>
    by_cases hc : c = '\n'
    · simp [csvLines, hc]
    · have hc2 : ¬ '\n' = c := fun e => hc e.symm
      simp only [csvLines, hc, if_false, List.mem_cons, hc2, false_or]
      rw [ih]
      by_cases hm : '\n' ∈ cs
      · simp [hm, List.takeWhile_cons, List.dropWhile_cons, hc]
      · simp [hm]

theorem length_le_of_mem_csvLines (s : Str) : ∀ l ∈ csvLines s, l.length ≤ s.length := by
  induction s with
  | nil => simp [csvLines]
  | cons c cs ih =>
    intro l hl
    by_cases hc : c = '\n'
    · simp only [csvLines, hc, if_true, List.mem_cons] at hl
      rcases hl with e | e
      · simp [e]
      · have := ih l e; simp; omega
    · simp only [csvLines, hc, if_false] at hl
      cases hf : csvLines cs with
      | nil => rw [hf] at hl; simp at hl
      | cons l1 ls =>
        rw [hf] at hl
        simp only [List.mem_cons] at hl
        rcases hl with e | e
        · have := ih l1 (by simp [hf]); simp [e]; omega
        · have := ih l (by simp [hf, e]); simp; omega

theorem removeLinesLoop_eq (inputDate : Str) :
    ∀ (fuel : Nat) (file acc : Str), file.length ≤ fuel →
      removeLinesLoop inputDate fuel file acc =
        some (acc ++ unlines ((fileLines file).filter (copiesLine inputDate))) := by
  intro fuel
  induction fuel with
  | zero =>
    intro file acc h
    have : file = [] := List.length_eq_zero.1 (by omega)
    subst this
    simp [removeLinesLoop, fileLines, unlines]
  | succ fuel ih =>
    intro file acc h
    by_cases hf : file = []
    · subst hf; simp [removeLinesLoop, fileLines, unlines]
    · have hlen := readStringUntil_length '\n' file hf
      have hrest : (readStringUntil '\n' file).2.length ≤ fuel := by omega
      rw [fileLines_eq file hf]
      unfold removeLinesLoop
      have hne : file.isEmpty = false := by cases file <;> simp_all
      simp only [hne, Bool.false_eq_true, if_false]
      generalize (readStringUntil '\n' file).1 = line at *
      generalize (readStringUntil '\n' file).2 = rest at *
      simp only [List.filter_cons]
      by_cases h1 : line.length = 0 ∨ startsWith line headerTag = true
      · simp only [h1, if_true, copiesLine, unlines]
        rw [ih rest _ hrest]; simp
      · simp only [h1, if_false, copiesLine]
        by_cases h2 : indexOf line ',' = -1
        · simp only [h2, if_true]
          rw [ih rest _ hrest]; simp
        · simp only [h2, if_false]
          by_cases h3 : indexOfFrom line ',' (toUnsigned (indexOf line ',' + 1)) = -1
          · simp only [h3, if_true]
            rw [ih rest _ hrest]; simp
          · simp only [h3, if_false]
            by_cases h4 : trim (substring line (toUnsigned (indexOf line ',' + 1))
                (toUnsigned (indexOfFrom line ',' (toUnsigned (indexOf line ',' + 1))))) = inputDate
            · simp only [h4, ne_eq, not_true_eq_false, if_false, decide_False]
              rw [ih rest _ hrest]; simp
            · simp only [h4, ne_eq, not_false_eq_true, if_true, decide_True, unlines]
              rw [ih rest _ hrest]; simp

theorem count_eq_dropWhile (ch : Char) (l : Str) :
    l.count ch =
      if ch ∈ l then 1 + ((l.dropWhile (fun c => c != ch)).drop 1).count ch else 0 := by
  induction l with
  | nil => simp
  | cons c cs ih =>
    by_cases h1 : c = ch
    · subst h1; simp [List.dropWhile_cons]; omega
    · have h2 : ¬ ch = c := fun e => h1 e.symm
      have h3 : (c == ch) = false := by simp [h1]
      rw [List.count_cons, ih]
      simp [h1, h2, h3, List.dropWhile_cons]

theorem two_le_commaCount_iff (line : Str) :
    2 ≤ commaCount line ↔
      ',' ∈ line ∧ ',' ∈ (line.dropWhile (fun c => c != ',')).drop 1 := by
  unfold commaCount
  rw [count_eq_dropWhile]
  by_cases h : ',' ∈ line
  · simp only [h, if_true, true_and]
    rw [← List.count_pos_iff]
    omega
  · simp [h]

theorem indexOf_eq_neg_one_iff (line : Str) (ch : Char) : indexOf line ch = -1 ↔ ch ∉ line := by
  unfold indexOf
  rw [indexOfFrom_eq]
  by_cases h : ch ∈ line
  · simp only [h, List.drop_zero, if_true, not_true_eq_false, iff_false]; omega
  · simp [h]

theorem copiesLine_eq_retained (inputDate line : Str) (h : line.length < 2147483648) :
    copiesLine inputDate line = retained inputDate line := by
  unfold copiesLine retained
  by_cases h1 : line.length = 0 ∨ startsWith line headerTag = true
  · rcases h1 with h1 | h1
    · have : line = [] := List.length_eq_zero.1 h1
      simp [this]
    · simp [h1]
  · simp only [h1, if_false]
    have hne : line.isEmpty = false := by
      cases line with
      | nil => simp at h1
      | cons c cs => rfl
    have hst : startsWith line headerTag = false := by
      cases hs : startsWith line headerTag with
      | true => exact absurd (Or.inr hs) h1
      | false => rfl
    simp only [hne, hst, Bool.false_or]
    by_cases h2 : indexOf line ',' = -1
    · have hm := (indexOf_eq_neg_one_iff line ',').1 h2
      have : ¬ 2 ≤ commaCount line := fun hc => hm ((two_le_commaCount_iff line).1 hc).1
      simp [h2, this]
    · have hm : ',' ∈ line := by
        by_contra hm; exact h2 ((indexOf_eq_neg_one_iff line ',').2 hm)
      simp only [h2, if_false]
      have hd := extractDate_eq line h
      simp only [extractDate, hm, if_true] at hd
      rw [hd]
      have hk := length_takeWhile_lt_of_mem ',' line hm
      have hidx : indexOf line ',' = (((line.takeWhile (fun c => c != ',')).length : Nat) : Int) := by
        unfold indexOf; rw [indexOfFrom_eq]; simp [hm]
      have e2 : line.drop ((List.takeWhile (fun c => c != ',') line).length + 1) =
          (line.dropWhile (fun c => c != ',')).drop 1 := by
        rw [← drop_length_takeWhile, List.drop_drop]
      have hsecond : indexOfFrom line ',' (toUnsigned (indexOf line ',' + 1)) = -1 ↔
          ',' ∉ (line.dropWhile (fun c => c != ',')).drop 1 := by
        rw [hidx]
        have e1 : ((List.takeWhile (fun c => c != ',') line).length : Int) + 1 =
            (((List.takeWhile (fun c => c != ',') line).length + 1 : Nat) : Int) := by simp
        rw [e1, toUnsigned_natCast _ (by omega), indexOfFrom_eq, e2]
        by_cases hm2 : ',' ∈ (line.dropWhile (fun c => c != ',')).drop 1
        · simp only [hm2, if_true, not_true_eq_false, iff_false]; omega
        · simp only [hm2, if_false, not_false_eq_true]
      by_cases h3 : indexOfFrom line ',' (toUnsigned (indexOf line ',' + 1)) = -1
      · have hm2 := hsecond.1 h3
        have : ¬ 2 ≤ commaCount line := fun hc => hm2 ((two_le_commaCount_iff line).1 hc).2
        simp [h3, this]
      · have hm2 : ',' ∈ (line.dropWhile (fun c => c != ',')).drop 1 := by
          by_contra hm2; exact h3 (hsecond.2 hm2)
        have : 2 ≤ commaCount line := (two_le_commaCount_iff line).2 ⟨hm, hm2⟩
        simp [h3, this]

theorem removeLatestLoop_eq (targetDate : Str) :
    ∀ (fuel : Nat) (file acc : Str) (found : Bool), file.length ≤ fuel →
      removeLatestLoop targetDate fuel file acc found =
        some (acc ++ printlnAll
          (if found then fileLines file
           else (fileLines file).eraseP (fun l => decide (extractDate l = targetDate)))) := by
  intro fuel
  induction fuel with
  | zero =>
    intro file acc found h
    have : file = [] := List.length_eq_zero.1 (by omega)
    subst this
    simp [removeLatestLoop, fileLines, printlnAll]
  | succ fuel ih =>
    intro file acc found h
    by_cases hf : file = []
    · subst hf; simp [removeLatestLoop, fileLines, printlnAll]
    · have hlen := readStringUntil_length '\n' file hf
      have hrest : (readStringUntil '\n' file).2.length ≤ fuel := by omega
      rw [fileLines_eq file hf]
      unfold removeLatestLoop
      have hne : file.isEmpty = false := by cases file <;> simp_all
      simp only [hne, Bool.false_eq_true, if_false]
      generalize (readStringUntil '\n' file).1 = line at *
      generalize (readStringUntil '\n' file).2 = rest at *
      cases found with
      | true =>
        simp only [Bool.true_eq_false, and_false, if_false, if_true]
        rw [ih rest _ true hrest]; simp [printlnAll]
      | false =>
        by_cases h1 : extractDate line = targetDate
        · simp only [h1, and_self, if_true, Bool.false_eq_true, if_false]
          rw [ih rest _ true hrest]
          simp [List.eraseP_cons, h1]
        · simp only [h1, false_and, if_false, Bool.false_eq_true]
          rw [ih rest _ false hrest]
          simp [List.eraseP_cons, h1, printlnAll]

theorem countDatesLoop_eq (csv : Str) (hcsv : csv.length < 2147483648) :
    ∀ (fuel n : Nat) (t : DateTable), n ≤ csv.length → csv.length < n + fuel →
      countDatesLoop csv fuel (n : Int) t = tallyLines t (csvLines (csv.drop n)) := by
  intro fuel
  induction fuel with
  | zero => intro n t h1 h2; omega
  | succ fuel ih =>
    intro n t h1 h2
    unfold countDatesLoop
    simp only []
    rw [toUnsigned_natCast n (by omega), indexOfFrom_eq, csvLines_eq (csv.drop n)]
    by_cases hm : '\n' ∈ csv.drop n
    · have hj := length_takeWhile_lt_of_mem '\n' (csv.drop n) hm
      rw [List.length_drop] at hj
      simp only [hm, if_true]
      have hno : ¬ (((n + ((csv.drop n).takeWhile (fun c => c != '\n')).length : Nat) : Int) = -1) := by
        omega
      simp only [hno, if_false]
      rw [toUnsigned_natCast _ (by omega), substring_eq _ _ _ (by omega), Nat.add_sub_cancel_left,
        take_length_takeWhile]
      have e1 : ((n + ((csv.drop n).takeWhile (fun c => c != '\n')).length : Nat) : Int) + 1 =
          ((n + ((csv.drop n).takeWhile (fun c => c != '\n')).length + 1 : Nat) : Int) := by simp
      have e2 : ((csv.drop n).dropWhile (fun c => c != '\n')).drop 1 =
          csv.drop (n + ((csv.drop n).takeWhile (fun c => c != '\n')).length + 1) := by
        rw [← drop_length_takeWhile, List.drop_drop, List.drop_drop]
        congr 1
      rw [e1, e2]
      simp only [tallyLines]
      generalize (csv.drop n).takeWhile (fun c => c != '\n') = line at *
      by_cases h3 : line.length = 0 ∨ startsWith line headerTag = true
      · simp only [h3, if_true]
        exact ih _ t (by omega) (by omega)
      · simp only [h3, if_false]
        cases recordDate t line with
        | ok t1 => exact ih _ t1 (by omega) (by omega)
        | outOfBounds => rfl
        | outOfFuel => rfl
    · simp [hm, tallyLines]

theorem countDatesLoop_start (csv : Str) (hcsv : csv.length < 2147483648) (t : DateTable) :
    countDatesLoop csv (csv.length + 1) 0 t = tallyLines t (csvLines csv) := by
  have := countDatesLoop_eq csv hcsv (csv.length + 1) 0 t (by omega) (by omega)
  simpa using this

theorem bump_nil (date : Str) : bump [] date = [(date, 1)] := rfl

theorem bump_cons (k : Str) (v : Nat) (rest : JsonObject) (date : Str) :
    bump ((k, v) :: rest) date =
      if k = date then (k, v + 1) :: rest else (k, v) :: bump rest date := by
  unfold bump
  by_cases h : k = date
  · simp [incr, h]
  · simp only [incr, h, if_false]
    cases incr date rest <;> simp

theorem incr_length (date : Str) : ∀ (o o1 : JsonObject), incr date o = some o1 → o1.length = o.length := by
  intro o
  induction o with
  | nil => intro o1 h; simp [incr] at h
  | cons p rest ih =>
    obtain ⟨k, v⟩ := p
    intro o1 h
    by_cases hk : k = date
    · simp [incr, hk] at h; subst h; simp
    · simp only [incr, hk, if_false] at h
      cases hr : incr date rest with
      | none => rw [hr] at h; simp at h
      | some r =>
        rw [hr] at h; simp at h; subst h
        simp [ih r hr]

theorem bump_keys (o : JsonObject) (date : Str) :
    (bump o date).map Prod.fst =
      if date ∈ o.map Prod.fst then o.map Prod.fst else o.map Prod.fst ++ [date] := by
  induction o with
  | nil => simp [bump_nil]
  | cons p rest ih =>
    obtain ⟨k, v⟩ := p
    rw [bump_cons]
    by_cases hk : k = date
    · simp [hk]
    · have hk2 : ¬ date = k := fun e => hk e.symm
      simp only [hk, if_false, List.map_cons, ih, List.mem_cons, hk2, false_or]
      split <;> simp

theorem bump_length_le (o : JsonObject) (date : Str) : o.length ≤ (bump o date).length := by
  have h := congrArg List.length (bump_keys o date)
  simp only [List.length_map] at h
  rw [h]; split <;> simp

theorem foldl_bump_length_le (ds : List Str) : ∀ o : JsonObject, o.length ≤ (ds.foldl bump o).length := by
  induction ds with
  | nil => intro o; simp
  | cons d ds ih =>
    intro o
    simp only [List.foldl_cons]
    exact le_trans (bump_length_le o d) (ih _)

theorem bump_nodup (o : JsonObject) (date : Str) (h : (o.map Prod.fst).Nodup) :
    ((bump o date).map Prod.fst).Nodup := by
  rw [bump_keys]
  by_cases hm : date ∈ o.map Prod.fst
  · simp only [hm, if_true]; exact h
  · simp only [hm, if_false]
    rw [List.nodup_append]
    refine ⟨h, by simp, ?_⟩
    intro a ha hb
    simp at hb
    subst hb
    exact hm ha

theorem foldl_bump_nodup (ds : List Str) :
    ∀ o : JsonObject, (o.map Prod.fst).Nodup → ((ds.foldl bump o).map Prod.fst).Nodup := by
  induction ds with
  | nil => intro o h; simpa using h
  | cons d ds ih => intro o h; exact ih _ (bump_nodup o d h)

theorem foldl_bump_keys_mem (ds : List Str) :
    ∀ (o : JsonObject) (d : Str),
      d ∈ (ds.foldl bump o).map Prod.fst ↔ d ∈ o.map Prod.fst ∨ d ∈ ds := by
  induction ds with
  | nil => intro o d; simp
  | cons d1 ds ih =>
    intro o d
    simp only [List.foldl_cons]
    rw [ih, bump_keys]
    by_cases hm : d1 ∈ o.map Prod.fst
    · simp only [hm, if_true, List.mem_cons]
      constructor
      · rintro (h | h)
        · exact Or.inl h
        · exact Or.inr (Or.inr h)
      · rintro (h | h | h)
        · exact Or.inl h
        · subst h; exact Or.inl hm
        · exact Or.inr h
    · simp only [hm, if_false, List.mem_append, List.mem_singleton, List.mem_cons]
      tauto

theorem tally_length (ds : List Str) : (tally ds).length = ds.dedup.length := by
  have hn : ((tally ds).map Prod.fst).Nodup := foldl_bump_nodup ds [] (by simp)
  have hm : ∀ d, d ∈ (tally ds).map Prod.fst ↔ d ∈ ds := by
    intro d
    have := foldl_bump_keys_mem ds [] d
    simpa [tally] using this
  have h1 : ((tally ds).map Prod.fst).toFinset = ds.toFinset := by
    ext d; simp only [List.mem_toFinset]; exact hm d
  have h2 := congrArg Finset.card h1
  rw [List.card_toFinset, List.card_toFinset, List.Nodup.dedup hn] at h2
  simpa using h2

theorem reported_bump (o : JsonObject) (date d : Str) :
    reported (bump o date) d =
      if d = date then some ((reported o d).getD 0 + 1) else reported o d := by
  unfold reported
  induction o with
  | nil =>
    rw [bump_nil]
    by_cases h : d = date
    · simp [List.lookup, h]
    · have hb : (d == date) = false := by simp [h]
      simp [List.lookup, h, hb]
  | cons p rest ih =>
    obtain ⟨k, v⟩ := p
    rw [bump_cons]
    by_cases hk : k = date
    · subst hk
      by_cases h : d = k
      · subst h; simp [List.lookup]
      · have hb : (d == k) = false := by simp [h]
        simp [List.lookup, h, hb]
    · simp only [hk, if_false]
      by_cases h : d = k
      · subst h
        have : ¬ d = date := hk
        simp [List.lookup, this]
      · have hb : (d == k) = false := by simp [h]
        simp only [List.lookup, hb]
        exact ih

theorem reported_foldl_bump (ds : List Str) :
    ∀ (o : JsonObject) (d : Str),
      reported (ds.foldl bump o) d =
        if ds.count d = 0 then reported o d else some ((reported o d).getD 0 + ds.count d) := by
  induction ds with
  | nil => intro o d; simp
  | cons d1 ds ih =>
    intro o d
    simp only [List.foldl_cons]
    rw [ih, reported_bump]
    by_cases h : d = d1
    · subst h
      simp only [if_true, List.count_cons_self, Option.getD_some]
      by_cases hc : ds.count d = 0
      · simp [hc]
      · simp [hc]; omega
    · have h2 : (d1 == d) = false := by simp; exact fun e => h e.symm
      simp only [h, if_false, List.count_cons, h2]
      simp

theorem reported_tally (ds : List Str) (d : Str) :
    reported (tally ds) d = if ds.count d = 0 then none else some (ds.count d) := by
  have := reported_foldl_bump ds [] d
  simpa [tally, reported] using this

theorem entriesFrom_zero (t : DateTable) (i : Nat) : t.entriesFrom i 0 = [] := rfl

theorem entriesFrom_succ (t : DateTable) (i n : Nat) :
    t.entriesFrom i (n + 1) = (t.dates i, t.counts i) :: t.entriesFrom (i + 1) n := by
  simp [DateTable.entriesFrom, List.range'_succ]

theorem entriesFrom_concat (t : DateTable) (i n : Nat) :
    t.entriesFrom i (n + 1) = t.entriesFrom i n ++ [(t.dates (i + n), t.counts (i + n))] := by
  simp [DateTable.entriesFrom, List.range'_concat]

theorem entriesFrom_length (t : DateTable) (i n : Nat) : (t.entriesFrom i n).length = n := by
  simp [DateTable.entriesFrom]

theorem entriesFrom_congr (t t1 : DateTable) (n : Nat) :
    ∀ i : Nat, (∀ j, i ≤ j → j < i + n → t1.dates j = t.dates j ∧ t1.counts j = t.counts j) →
      t1.entriesFrom i n = t.entriesFrom i n := by
  induction n with
  | zero => intro i _; rfl
  | succ n ih =>
    intro i h
    rw [entriesFrom_succ, entriesFrom_succ, ih (i + 1) (fun j h1 h2 => h j (by omega) (by omega))]
    rw [(h i (by omega) (by omega)).1, (h i (by omega) (by omega)).2]

theorem searchDates_spec (date : Str) (t : DateTable) :
    ∀ (r i : Nat), i + r ≤ MAX_DATES →
      ∃ t1 found, searchDates date t r i = Outcome.ok (t1, found) ∧
        t1.dates = t.dates ∧ t1.uniqueDateCount = t.uniqueDateCount ∧
        (∀ j, j < i → t1.counts j = t.counts j) ∧
        (found = true → incr date (t.entriesFrom i r) = some (t1.entriesFrom i r)) ∧
        (found = false → t1 = t ∧ incr date (t.entriesFrom i r) = none) := by
  intro r
  induction r with
  | zero =>
    intro i _
    exact ⟨t, false, rfl, rfl, rfl, fun _ _ => rfl, by simp, by simp [entriesFrom_zero, incr]⟩
  | succ r ih =>
    intro i hi
    have hlt : i < MAX_DATES := by omega
    by_cases hd : t.dates i = date
    · refine ⟨{ t with counts := Function.update t.counts i (t.counts i + 1) }, true, ?_, rfl, rfl,
        ?_, ?_, by simp⟩
      · simp [searchDates, hlt, hd]
      · intro j hj
        have : j ≠ i := by omega
        simp [Function.update, this]
      · intro _
        rw [entriesFrom_succ, entriesFrom_succ]
        have hc := entriesFrom_congr t
          { t with counts := Function.update t.counts i (t.counts i + 1) } r (i + 1)
          (by
            intro j h1 h2
            have : j ≠ i := by omega
            simp [Function.update, this])
        rw [hc]
        simp [incr, hd]
    · obtain ⟨t1, found, h1, h2, h3, h4, h5, h6⟩ := ih (i + 1) (by omega)
      refine ⟨t1, found, ?_, h2, h3, fun j hj => h4 j (by omega), ?_, ?_⟩
      · simp [searchDates, hlt, hd, h1]
      · intro hf
        rw [entriesFrom_succ, entriesFrom_succ, h2, h4 i (by omega)]
        simp [incr, hd, h5 hf]
      · intro hf
        refine ⟨(h6 hf).1, ?_⟩
        rw [entriesFrom_succ]
        simp [incr, hd, (h6 hf).2]

theorem recordDate_spec (t : DateTable) (line : Str) (ht : t.uniqueDateCount ≤ MAX_DATES) :
    ((bump t.entries (countDatesDate line)).length ≤ MAX_DATES →
      ∃ t1, recordDate t line = Outcome.ok t1 ∧
        t1.entries = bump t.entries (countDatesDate line) ∧ t1.uniqueDateCount ≤ MAX_DATES) ∧
    (MAX_DATES < (bump t.entries (countDatesDate line)).length →
      recordDate t line = Outcome.outOfBounds) := by
  obtain ⟨t1, found, h1, h2, h3, h4, h5, h6⟩ :=
    searchDates_spec (countDatesDate line) t t.uniqueDateCount 0 (by omega)
  cases found with
  | true =>
    have hi := h5 rfl
    have hb : bump t.entries (countDatesDate line) = t1.entries := by
      unfold bump DateTable.entries; rw [hi, h3]
    have hl : t1.entries.length = t.uniqueDateCount := by
      unfold DateTable.entries; rw [entriesFrom_length, h3]
    constructor
    · intro _
      refine ⟨t1, ?_, hb.symm, by omega⟩
      simp [recordDate, h1]
    · intro h; rw [hb, hl] at h; omega
  | false =>
    obtain ⟨e1, e2⟩ := h6 rfl
    subst e1
    have hb : bump t1.entries (countDatesDate line) = t1.entries ++ [(countDatesDate line, 1)] := by
      unfold bump DateTable.entries; rw [e2]
    have hl : t1.entries.length = t1.uniqueDateCount := by
      unfold DateTable.entries; rw [entriesFrom_length]
    rw [hb, List.length_append, hl]
    constructor
    · intro h
      have hlt : t1.uniqueDateCount < MAX_DATES := by simpa using h
      refine ⟨{ dates := Function.update t1.dates t1.uniqueDateCount (countDatesDate line),
                counts := Function.update t1.counts t1.uniqueDateCount 1,
                uniqueDateCount := t1.uniqueDateCount + 1 }, ?_, ?_, ?_⟩
      · simp only [recordDate, h1, Bool.false_eq_true, if_false, hlt, if_true]
      · show DateTable.entriesFrom _ 0 (t1.uniqueDateCount + 1) = _
        rw [entriesFrom_concat]
        have e0 : ∀ (f : Nat → Str) (v : Str), Function.update f t1.uniqueDateCount v
            (0 + t1.uniqueDateCount) = v := by
          intro f v; rw [Nat.zero_add]; exact Function.update_same _ _ _
        have e1 : ∀ (f : Nat → Nat) (v : Nat), Function.update f t1.uniqueDateCount v
            (0 + t1.uniqueDateCount) = v := by
          intro f v; rw [Nat.zero_add]; exact Function.update_same _ _ _
        simp only [e0, e1]
        congr 1
        exact entriesFrom_congr t1 _ _ 0 (by
          intro j _ h2
          have : j ≠ t1.uniqueDateCount := by omega
          simp [Function.update, this])
      · show t1.uniqueDateCount + 1 ≤ MAX_DATES
        omega
    · intro h
      have hlt : ¬ t1.uniqueDateCount < MAX_DATES := by
        simp at h; omega
      simp only [recordDate, h1, Bool.false_eq_true, if_false, hlt]

theorem tallyLines_spec :
    ∀ (lines : List Str) (t : DateTable), t.uniqueDateCount ≤ MAX_DATES →
      ((((lines.filter isCounted).map countDatesDate).foldl bump t.entries).length ≤ MAX_DATES →
        ∃ t1, tallyLines t lines = Outcome.ok t1 ∧
          t1.entries = ((lines.filter isCounted).map countDatesDate).foldl bump t.entries ∧
          t1.uniqueDateCount ≤ MAX_DATES) ∧
      (MAX_DATES < (((lines.filter isCounted).map countDatesDate).foldl bump t.entries).length →
        tallyLines t lines = Outcome.outOfBounds) := by
  intro lines
  induction lines with
  | nil =>
    intro t ht
    exact ⟨fun _ => ⟨t, rfl, rfl, ht⟩, fun h => by
      have : t.entries.length = t.uniqueDateCount := entriesFrom_length t 0 _
      simp at h; omega⟩
  | cons line rest ih =>
    intro t ht
    by_cases hc : line.length = 0 ∨ startsWith line headerTag = true
    · have hic : isCounted line = false := by
        unfold isCounted
        rcases hc with hc | hc
        · have : line = [] := List.length_eq_zero.1 hc
          simp [this]
        · simp [hc]
      simp only [tallyLines, hc, if_true, List.filter_cons, hic, Bool.false_eq_true, if_false]
      exact ih t ht
    · have hic : isCounted line = true := by
        unfold isCounted
        have h1 : line.isEmpty = false := by
          cases line with
          | nil => simp at hc
          | cons c cs => rfl
        have h2 : startsWith line headerTag = false := by
          cases hs : startsWith line headerTag with
          | true => exact absurd (Or.inr hs) hc
          | false => rfl
        simp [h1, h2]
      simp only [tallyLines, hc, if_false, List.filter_cons, hic, if_true, List.map_cons,
        List.foldl_cons]
      obtain ⟨r1, r2⟩ := recordDate_spec t line ht
      by_cases hb : (bump t.entries (countDatesDate line)).length ≤ MAX_DATES
      · obtain ⟨t1, e1, e2, e3⟩ := r1 hb
        rw [e1, ← e2]
        exact ih t1 e3
      · have hb2 : MAX_DATES < (bump t.entries (countDatesDate line)).length := by omega
        rw [r2 hb2]
        have hmono := foldl_bump_length_le ((rest.filter isCounted).map countDatesDate)
          (bump t.entries (countDatesDate line))
        constructor
        · intro h; omega
        · intro _; rfl

theorem jsonSet_of_not_mem (o : JsonObject) (key : Str) (value : Nat)
    (h : key ∉ o.map Prod.fst) : jsonSet o key value = o ++ [(key, value)] := by
  induction o with
  | nil => rfl
  | cons p rest ih =>
    obtain ⟨k, v⟩ := p
    have hk : ¬ k = key := fun e => h (by simp [e])
    have hr : key ∉ rest.map Prod.fst := fun e => h (by simp at e ⊢; exact Or.inr e)
    simp [jsonSet, hk, ih hr]

theorem toJson_spec (t : DateTable) :
    ∀ (r i : Nat) (doc : JsonObject), i + r ≤ MAX_DATES →
      ((doc ++ t.entriesFrom i r).map Prod.fst).Nodup →
      toJson t r i doc = Outcome.ok (doc ++ t.entriesFrom i r) := by
  intro r
  induction r with
  | zero => intro i doc _ _; simp [toJson, entriesFrom_zero]
  | succ r ih =>
    intro i doc hi hn
    have hlt : i < MAX_DATES := by omega
    rw [entriesFrom_succ] at hn ⊢
    have hnm : t.dates i ∉ doc.map Prod.fst := by
      intro hm
      rw [List.map_append, List.nodup_append] at hn
      exact hn.2.2 hm (by simp)
    simp only [toJson, hlt, if_true]
    rw [jsonSet_of_not_mem _ _ _ hnm, ih (i + 1) _ (by omega) (by simpa using hn)]
    simp

theorem countDates_eq (csv : Str) (h : csv.length < 2147483648) :
    countDates csv =
      if (tally (countedDates csv)).length ≤ MAX_DATES then Outcome.ok (tally (countedDates csv))
      else Outcome.outOfBounds := by
  unfold countDates
  rw [countDatesLoop_start csv h]
  obtain ⟨r1, r2⟩ := tallyLines_spec (csvLines csv) DateTable.init (by simp [DateTable.init])
  have hinit : DateTable.init.entries = [] := rfl
  rw [hinit] at r1 r2
  by_cases hl : (tally (countedDates csv)).length ≤ MAX_DATES
  · obtain ⟨t1, e1, e2, e3⟩ := r1 hl
    simp only [hl, if_true, e1]
    have hn : (t1.entries.map Prod.fst).Nodup := by
      rw [e2]; exact foldl_bump_nodup _ [] (by simp)
    have := toJson_spec t1 t1.uniqueDateCount 0 [] (by omega) (by simpa using hn)
    rw [this]
    simp only [List.nil_append]
    congr 1
  · have := r2 (by unfold tally countedDates at hl; omega)
    simp only [hl, if_false, this]

/-! ## The event log store: appending -/

theorem appendToCSV_of_no_fault (fs : FS) (path : String) (d t : Str)
    (hf : fs.fault path OpenMode.append = false) :
    (appendToCSV fs path d t).1 = true ∧
      (appendToCSV fs path d t).2.fault = fs.fault ∧
      (appendToCSV fs path d t).2.files path =
        some ((fs.files path).getD [] ++
          (if ((fs.files path).getD []).length = 0 then println csvHeader else []) ++
          println (dataLine d t)) := by
  unfold appendToCSV LittleFS.openFile
  cases hc : fs.files path with
  | none => simp [hf, FS.store]
  | some c => simp [hf, FS.store]

theorem appendToCSV_success_iff (fs : FS) (path : String) (d t : Str) :
    (appendToCSV fs path d t).1 = true ↔ fs.fault path OpenMode.append = false := by
  constructor
  · intro h
    by_contra hf
    have hf2 : fs.fault path OpenMode.append = true := by simpa using hf
    simp [appendToCSV, LittleFS.openFile, hf2] at h
  · intro hf; exact (appendToCSV_of_no_fault fs path d t hf).1

theorem appendAll_of_nonempty (path : String) :
    ∀ (es : List (Str × Str)) (fs : FS) (c : Str), fs.fault path OpenMode.append = false →
      fs.files path = some c → c ≠ [] →
      (appendAll fs path es).1 = true ∧
        (appendAll fs path es).2.files path = some (c ++ printlnAll (dataLines es)) := by
  intro es
  induction es with
  | nil => intro fs c _ hc _; simp [appendAll, dataLines, printlnAll, hc]
  | cons e es ih =>
    intro fs c hf hc hne
    obtain ⟨h1, h2, h3⟩ := appendToCSV_of_no_fault fs path e.1 e.2 hf
    have hlen : ¬ c.length = 0 := fun h0 => hne (List.length_eq_zero.1 h0)
    rw [hc] at h3
    simp only [Option.getD_some, hlen, if_false, List.append_nil] at h3
    obtain ⟨i1, i2⟩ := ih (appendToCSV fs path e.1 e.2).2 _ (by rw [h2]; exact hf) h3
      (by simp [println])
    simp only [appendAll, h1, i1, i2, Bool.and_self, true_and]
    simp [dataLines, printlnAll]

theorem appendAll_of_empty (path : String) (fs : FS) (e : Str × Str) (es : List (Str × Str))
    (hf : fs.fault path OpenMode.append = false)
    (h0 : fs.files path = none ∨ fs.files path = some []) :
    (appendAll fs path (e :: es)).1 = true ∧
      (appendAll fs path (e :: es)).2.files path =
        some (printlnAll (csvHeader :: dataLines (e :: es))) := by
  obtain ⟨h1, h2, h3⟩ := appendToCSV_of_no_fault fs path e.1 e.2 hf
  have hc : (fs.files path).getD [] = [] := by
    rcases h0 with h0 | h0 <;> simp [h0]
  rw [hc] at h3
  simp only [List.length_nil, if_true, List.nil_append] at h3
  obtain ⟨i1, i2⟩ := appendAll_of_nonempty path es (appendToCSV fs path e.1 e.2).2 _
    (by rw [h2]; exact hf) h3 (by simp [println])
  simp only [appendAll, h1, i1, i2, Bool.and_self, true_and]
  simp [dataLines, printlnAll]

/-- C1: starting from an absent or empty log, after the successful `appendToCSV` calls for
a non-empty sequence of (date, time) pairs, the log consists of the header line
"customer,date,time" once, followed by one data line "1,date,time" per call, in call
order; each line is ended by the CR LF that `println` writes. -/
theorem appendToCSV_log_content (fs : FS) (path : String) (e : Str × Str)
    (es : List (Str × Str))
    (h0 : fs.files path = none ∨ fs.files path = some [])
    (hs : (appendAll fs path (e :: es)).1 = true) :
    (appendAll fs path (e :: es)).2.files path =
      some (printlnAll (csvHeader :: dataLines (e :: es))) := by
  have hf : fs.fault path OpenMode.append = false := by
    simp only [appendAll, Bool.and_eq_true] at hs
    exact (appendToCSV_success_iff fs path e.1 e.2).1 hs.1
  exact (appendAll_of_empty path fs e es hf h0).2

theorem appendToCSV_log_content_witness :
    (emptyVolume.files csvPath = none ∨ emptyVolume.files csvPath = some []) ∧
      (appendAll emptyVolume csvPath
        [("2024/01/01".toList, "09:00".toList), ("2024/01/02".toList, "08:00".toList)]).1 = true ∧
      (appendAll emptyVolume csvPath
        [("2024/01/01".toList, "09:00".toList), ("2024/01/02".toList, "08:00".toList)]).2.files
          csvPath =
        some (printlnAll (csvHeader :: dataLines
          [("2024/01/01".toList, "09:00".toList), ("2024/01/02".toList, "08:00".toList)])) :=
  ⟨Or.inl rfl, by decide,
    appendToCSV_log_content emptyVolume csvPath _ _ (Or.inl rfl) (by decide)⟩

/-! ## The event log store: removing the first entry of a date -/

theorem removeLatestEntryOnDate_content (fs : FS) (path : String) (targetDate content : Str)
    (hfile : fs.files path = some content)
    (hr : fs.fault path OpenMode.read = false)
    (hw : fs.fault tempPath OpenMode.write = false)
    (hp : path ≠ tempPath) :
    (removeLatestEntryOnDate fs path targetDate).map (fun r => (r.1, r.2.files path)) =
      some (true, some (printlnAll
        ((fileLines content).eraseP (fun l => decide (extractDate l = targetDate))))) := by
  unfold removeLatestEntryOnDate
  have h1 : LittleFS.openFile fs path OpenMode.read = some (content, fs) := by
    simp [LittleFS.openFile, hr, hfile]
  have h2 : LittleFS.openFile fs tempPath OpenMode.write =
      some ([], fs.store tempPath (some [])) := by
    simp [LittleFS.openFile, hw]
  simp only [h1, h2]
  have h3 : ((fs.store tempPath (some [])).files path).getD [] = content := by
    simp [FS.store, hp, hfile]
  rw [h3, removeLatestLoop_eq targetDate _ content [] false (le_refl _)]
  have hp2 : ¬ tempPath = path := fun e => hp e.symm
  simp [LittleFS.remove, LittleFS.rename, FS.store, hp, hp2]

/-- C2 (the code departs from the claim): on the log that one `appendToCSV` call wrote,
`removeLatestEntryOnDate` with a date that no line carries does not leave the file as it
was: every line is written back with `println`, so each gains a carriage return; with the
date of the data line, that line goes and the header line gains a carriage return. -/
theorem removeLatestEntryOnDate_rewrites_line_ends :
    (appendToCSV emptyVolume csvPath "2024/01/01".toList "09:00".toList).2.files csvPath =
        some "customer,date,time\r\n1,2024/01/01,09:00\r\n".toList ∧
      (removeLatestEntryOnDate (volumeWith "customer,date,time\r\n1,2024/01/01,09:00\r\n".toList)
          csvPath "2024/01/02".toList).map (fun r => (r.1, r.2.files csvPath)) =
        some (true, some "customer,date,time\r\r\n1,2024/01/01,09:00\r\r\n".toList) ∧
      (removeLatestEntryOnDate (volumeWith "customer,date,time\r\n1,2024/01/01,09:00\r\n".toList)
          csvPath "2024/01/01".toList).map (fun r => (r.1, r.2.files csvPath)) =
        some (true, some "customer,date,time\r\r\n".toList) := by
  refine ⟨by decide, by decide, by decide⟩

/-! ## The event log store: removing every entry of a date -/

theorem removeLinesWithDate_copies (fs : FS) (path : String) (inputDate content : Str)
    (hfile : fs.files path = some content)
    (hr : fs.fault path OpenMode.read = false)
    (hw : fs.fault path OpenMode.write = false) :
    (removeLinesWithDate fs path inputDate).map (fun r => (r.1, r.2.files path)) =
      some (true, some (unlines ((fileLines content).filter (copiesLine inputDate)))) := by
  unfold removeLinesWithDate
  have h1 : LittleFS.openFile fs path OpenMode.read = some (content, fs) := by
    simp [LittleFS.openFile, hr, hfile]
  have h2 : LittleFS.openFile fs path OpenMode.write = some ([], fs.store path (some [])) := by
    simp [LittleFS.openFile, hw]
  simp only [h1, removeLinesLoop_eq inputDate _ content [] (le_refl _), h2]
  simp [FS.store]

theorem filter_copiesLine_eq (inputDate content : Str) (hlen : content.length < 2147483648) :
    (fileLines content).filter (copiesLine inputDate) =
      (fileLines content).filter (retained inputDate) := by
  apply List.filter_congr
  intro l hl
  have := length_le_of_mem_fileLines content l hl
  exact copiesLine_eq_retained inputDate l (by omega)

/-- C8: the file `removeLinesWithDate` writes consists, in the original order and each
followed by a newline, of exactly the lines that are empty, or start with "customer", or
have at least two commas and a trimmed date field other than `inputDate`; every other
line (fewer than two commas, or trimmed date equal to `inputDate`) is left out. -/
theorem removeLinesWithDate_content (fs : FS) (path : String) (inputDate content : Str)
    (hfile : fs.files path = some content)
    (hr : fs.fault path OpenMode.read = false)
    (hw : fs.fault path OpenMode.write = false)
    (hlen : content.length < 2147483648) :
    (removeLinesWithDate fs path inputDate).map (fun r => (r.1, r.2.files path)) =
      some (true, some (unlines ((fileLines content).filter (retained inputDate)))) := by
  rw [removeLinesWithDate_copies fs path inputDate content hfile hr hw,
    filter_copiesLine_eq inputDate content hlen]

theorem removeLinesWithDate_content_witness :
    (volumeWith mixedLog).files csvPath = some mixedLog ∧
    (volumeWith mixedLog).fault csvPath OpenMode.read = false ∧
    (volumeWith mixedLog).fault csvPath OpenMode.write = false ∧
    mixedLog.length < 2147483648 ∧
    (removeLinesWithDate (volumeWith mixedLog) csvPath "2024/01/02".toList).map
        (fun r => (r.1, r.2.files csvPath)) =
      some (true, some (unlines ((fileLines mixedLog).filter (retained "2024/01/02".toList)))) ∧
    unlines ((fileLines mixedLog).filter (retained "2024/01/02".toList)) =
      "customer,date,time\r\n1,2024/01/01,09:00\r\n\n".toList :=
  ⟨by decide, by decide, by decide, by decide,
    removeLinesWithDate_content (volumeWith mixedLog) csvPath "2024/01/02".toList mixedLog
      (by decide) (by decide) (by decide) (by decide),
    by decide⟩

/-! ## Clearing the log, and failed opens -/

theorem countDates_nil : countDates [] = Outcome.ok [] := by decide

theorem clearFile_success (fs : FS) (path : String) (h : (clearFile fs path).1 = true) :
    (clearFile fs path).2 = fs.store path (some []) := by
  unfold clearFile LittleFS.openFile at h ⊢
  by_cases hf : fs.fault path OpenMode.write = true
  · simp [hf] at h
  · simp [hf]

/-- C10: when `appendToCSV`, `removeLatestEntryOnDate`, `removeLinesWithDate` or
`clearFile` cannot open a file it needs (the log, for reading, writing or appending, or
the temporary file of `removeLatestEntryOnDate`), it returns false and every file of the
volume, the log included, holds what it held before the call. -/
theorem failed_open_leaves_log (fs : FS) (path : String) (date time : Str) :
    (LittleFS.openFile fs path OpenMode.append = none →
      (appendToCSV fs path date time).1 = false ∧
        (appendToCSV fs path date time).2.files = fs.files) ∧
    (LittleFS.openFile fs path OpenMode.read = none →
      ∃ fs1, removeLatestEntryOnDate fs path date = some (false, fs1) ∧ fs1.files = fs.files) ∧
    (LittleFS.openFile fs tempPath OpenMode.write = none →
      ∃ fs1, removeLatestEntryOnDate fs path date = some (false, fs1) ∧ fs1.files = fs.files) ∧
    (LittleFS.openFile fs path OpenMode.read = none →
      ∃ fs1, removeLinesWithDate fs path date = some (false, fs1) ∧ fs1.files = fs.files) ∧
    (LittleFS.openFile fs path OpenMode.write = none →
      ∃ fs1, removeLinesWithDate fs path date = some (false, fs1) ∧ fs1.files = fs.files) ∧
    (LittleFS.openFile fs path OpenMode.write = none →
      (clearFile fs path).1 = false ∧ (clearFile fs path).2.files = fs.files) := by
  have hread : ∀ c fs1, LittleFS.openFile fs path OpenMode.read = some (c, fs1) →
      fs1 = fs ∧ fs.files path = some c := by
    intro c fs1 h
    unfold LittleFS.openFile at h
    by_cases hf : fs.fault path OpenMode.read = true
    · simp [hf] at h
    · cases hc : fs.files path with
      | none => simp [hf, hc] at h
      | some c0 =>
        simp [hf, hc] at h
        exact ⟨h.2.symm, by rw [h.1]⟩
  refine ⟨?_, ?_, ?_, ?_, ?_, ?_⟩
  · intro h; simp [appendToCSV, h]
  · intro h; exact ⟨fs, by simp [removeLatestEntryOnDate, h], rfl⟩
  · intro h
    cases hr : LittleFS.openFile fs path OpenMode.read with
    | none => exact ⟨fs, by simp [removeLatestEntryOnDate, hr], rfl⟩
    | some p =>
      obtain ⟨c, fs1⟩ := p
      obtain ⟨e1, _⟩ := hread c fs1 hr
      subst e1
      exact ⟨fs1, by simp [removeLatestEntryOnDate, hr, h], rfl⟩
  · intro h; exact ⟨fs, by simp [removeLinesWithDate, h], rfl⟩
  · intro h
    cases hr : LittleFS.openFile fs path OpenMode.read with
    | none => exact ⟨fs, by simp [removeLinesWithDate, hr], rfl⟩
    | some p =>
      obtain ⟨c, fs1⟩ := p
      obtain ⟨e1, _⟩ := hread c fs1 hr
      subst e1
      refine ⟨fs1, ?_, rfl⟩
      simp [removeLinesWithDate, hr, removeLinesLoop_eq date _ c [] (le_refl _), h]
  · intro h; simp [clearFile, h]

theorem failed_open_leaves_log_witness :
    (LittleFS.openFile (faultyVolume mixedLog) csvPath OpenMode.append = none ∧
      LittleFS.openFile (faultyVolume mixedLog) csvPath OpenMode.read = none ∧
      LittleFS.openFile (faultyVolume mixedLog) csvPath OpenMode.write = none ∧
      LittleFS.openFile (faultyVolume mixedLog) tempPath OpenMode.write = none) ∧
    ((appendToCSV (faultyVolume mixedLog) csvPath "2024/01/01".toList "09:00".toList).1 = false ∧
      (appendToCSV (faultyVolume mixedLog) csvPath "2024/01/01".toList "09:00".toList).2.files =
        (faultyVolume mixedLog).files) ∧
    (∃ fs1, removeLatestEntryOnDate (faultyVolume mixedLog) csvPath "2024/01/01".toList =
        some (false, fs1) ∧ fs1.files = (faultyVolume mixedLog).files) ∧
    (∃ fs1, removeLatestEntryOnDate (faultyVolume mixedLog) csvPath "2024/01/01".toList =
        some (false, fs1) ∧ fs1.files = (faultyVolume mixedLog).files) ∧
    (∃ fs1, removeLinesWithDate (faultyVolume mixedLog) csvPath "2024/01/01".toList =
        some (false, fs1) ∧ fs1.files = (faultyVolume mixedLog).files) ∧
    (∃ fs1, removeLinesWithDate (faultyVolume mixedLog) csvPath "2024/01/01".toList =
        some (false, fs1) ∧ fs1.files = (faultyVolume mixedLog).files) ∧
    ((clearFile (faultyVolume mixedLog) csvPath).1 = false ∧
      (clearFile (faultyVolume mixedLog) csvPath).2.files = (faultyVolume mixedLog).files) :=
  ⟨⟨rfl, rfl, rfl, rfl⟩,
    (failed_open_leaves_log (faultyVolume mixedLog) csvPath "2024/01/01".toList
      "09:00".toList).1 rfl,
    (failed_open_leaves_log (faultyVolume mixedLog) csvPath "2024/01/01".toList
      "09:00".toList).2.1 rfl,
    (failed_open_leaves_log (faultyVolume mixedLog) csvPath "2024/01/01".toList
      "09:00".toList).2.2.1 rfl,
    (failed_open_leaves_log (faultyVolume mixedLog) csvPath "2024/01/01".toList
      "09:00".toList).2.2.2.1 rfl,
    (failed_open_leaves_log (faultyVolume mixedLog) csvPath "2024/01/01".toList
      "09:00".toList).2.2.2.2.1 rfl,
    (failed_open_leaves_log (faultyVolume mixedLog) csvPath "2024/01/01".toList
      "09:00".toList).2.2.2.2.2 rfl⟩

/-! ## The date aggregator: line order -/

theorem countedDates_perm (c1 c2 : Str) (hp : (csvLines c1).Perm (csvLines c2)) :
    (countedDates c1).Perm (countedDates c2) :=
  (hp.filter isCounted).map countDatesDate

theorem tally_length_perm (ds1 ds2 : List Str) (hp : ds1.Perm ds2) :
    (tally ds1).length = (tally ds2).length := by
  rw [tally_length, tally_length]
  exact (hp.dedup).length_eq

theorem reported_tally_perm (ds1 ds2 : List Str) (hp : ds1.Perm ds2) (d : Str) :
    reported (tally ds1) d = reported (tally ds2) d := by
  rw [reported_tally, reported_tally]
  have hc : List.count d ds1 = List.count d ds2 := hp.countP_eq _
  rw [hc]

/-! ## The date aggregator: counting what was appended -/

theorem matchesFormat_length : ∀ (p : List Char) (s : Str),
    matchesFormat p s = true → s.length = p.length := by
  intro p
  induction p with
  | nil => intro s h; cases s with
    | nil => rfl
    | cons c cs => simp [matchesFormat] at h
  | cons q qs ih => intro s h; cases s with
    | nil => simp [matchesFormat] at h
    | cons c cs =>
      simp only [matchesFormat, Bool.and_eq_true] at h
      simp [ih cs h.2]

theorem matchesFormat_mem : ∀ (p : List Char) (s : Str),
    matchesFormat p s = true → ∀ ch ∈ s, ch.isDigit = true ∨ ch ∈ p := by
  intro p
  induction p with
  | nil => intro s h; cases s with
    | nil => simp
    | cons c cs => simp [matchesFormat] at h
  | cons q qs ih => intro s h; cases s with
    | nil => simp
    | cons c cs =>
      simp only [matchesFormat, Bool.and_eq_true] at h
      intro ch hch
      rcases List.mem_cons.1 hch with e | e
      · subst e
        by_cases hq : q = '9'
        · simp only [hq, if_true] at h; exact Or.inl h.1
        · simp only [hq, if_false, beq_iff_eq] at h; right; simp [h.1]
      · rcases ih cs h.2 ch e with r | r
        · exact Or.inl r
        · right; simp [r]

theorem isDate_facts (d : Str) (h : isDate d = true) :
    d.length = 10 ∧ ',' ∉ d ∧ '\n' ∉ d := by
  refine ⟨matchesFormat_length _ d h, ?_, ?_⟩
  · intro hm
    rcases matchesFormat_mem _ d h _ hm with r | r
    · exact absurd r (by decide)
    · exact absurd r (by decide)
  · intro hm
    rcases matchesFormat_mem _ d h _ hm with r | r
    · exact absurd r (by decide)
    · exact absurd r (by decide)

theorem isTime_facts (t : Str) (h : isTime t = true) : t.length = 5 ∧ '\n' ∉ t := by
  refine ⟨matchesFormat_length _ t h, ?_⟩
  intro hm
  rcases matchesFormat_mem _ t h _ hm with r | r
  · exact absurd r (by decide)
  · exact absurd r (by decide)

theorem csvLines_append_newline (l rest : Str) (h : '\n' ∉ l) :
    csvLines (l ++ '\n' :: rest) = l :: csvLines rest := by
  induction l with
  | nil => simp [csvLines]
  | cons c cs ih =>
    have h1 : c ≠ '\n' := fun e => h (by simp [e])
    have h2 : '\n' ∉ cs := fun e => h (by simp [e])
    simp [csvLines, h1, ih h2]

theorem csvLines_printlnAll (ls : List Str) (h : ∀ l ∈ ls, '\n' ∉ l) :
    csvLines (printlnAll ls) = ls.map (fun l => l ++ ['\r']) := by
  induction ls with
  | nil => simp [printlnAll, csvLines]
  | cons l ls ih =>
    have e : printlnAll (l :: ls) = (l ++ ['\r']) ++ '\n' :: printlnAll ls := by
      simp [printlnAll, println]
    rw [e, csvLines_append_newline _ _ (by
      intro hm
      rcases List.mem_append.1 hm with r | r
      · exact h l (by simp) r
      · simp at r), ih (fun l1 h1 => h l1 (by simp [h1]))]
    simp

theorem takeWhile_append_of_not_mem (ch : Char) (l rest : Str) (h : ch ∉ l) :
    (l ++ ch :: rest).takeWhile (fun c => c != ch) = l := by
  induction l with
  | nil => simp
  | cons c cs ih =>
    have h1 : c ≠ ch := fun e => h (by simp [e])
    have h2 : ch ∉ cs := fun e => h (by simp [e])
    simp [List.takeWhile_cons, h1, ih h2]

theorem dataLine_facts (d t : Str) (hd : isDate d = true) (ht : isTime t = true) :
    '\n' ∉ dataLine d t ∧ isCounted (dataLine d t ++ ['\r']) = true ∧
      countDatesDate (dataLine d t ++ ['\r']) = d := by
  obtain ⟨d1, d2, d3⟩ := isDate_facts d hd
  obtain ⟨t1, t2⟩ := isTime_facts t ht
  have e : dataLine d t ++ ['\r'] = '1' :: ',' :: (d ++ ',' :: (t ++ ['\r'])) := by
    simp [dataLine]
  refine ⟨?_, ?_, ?_⟩
  · simp [dataLine, d3, t2]
  · rw [e]
    simp [isCounted, startsWith, headerTag, List.take]
  · rw [countDatesDate_eq, extractDate_eq _ (by rw [e]; simp [d1, t1]), e]
    simp only [List.mem_cons, true_or, or_true, if_true]
    unfold dateField
    have : List.dropWhile (fun c => c != ',') ('1' :: ',' :: (d ++ ',' :: (t ++ ['\r']))) =
        ',' :: (d ++ ',' :: (t ++ ['\r'])) := by
      simp [List.dropWhile_cons]
    rw [this]
    simp only [List.drop_succ_cons, List.drop_zero]
    exact takeWhile_append_of_not_mem ',' d _ d2

theorem countedDates_of_appends (es : List (Str × Str))
    (hfmt : ∀ e ∈ es, isDate e.1 = true ∧ isTime e.2 = true) :
    countedDates (printlnAll (csvHeader :: dataLines es)) = es.map Prod.fst := by
  have hnl : ∀ l ∈ csvHeader :: dataLines es, '\n' ∉ l := by
    intro l hl
    rcases List.mem_cons.1 hl with r | r
    · subst r; decide
    · simp only [dataLines, List.mem_map] at r
      obtain ⟨e, he, rfl⟩ := r
      exact (dataLine_facts e.1 e.2 (hfmt e he).1 (hfmt e he).2).1
  unfold countedDates
  rw [csvLines_printlnAll _ hnl]
  have hh : isCounted (csvHeader ++ ['\r']) = false := by decide
  simp only [List.map_cons, List.filter_cons, hh, Bool.false_eq_true, if_false]
  clear hnl
  induction es with
  | nil => simp [dataLines]
  | cons e es ih =>
    obtain ⟨_, f2, f3⟩ := dataLine_facts e.1 e.2 (hfmt e (by simp)).1 (hfmt e (by simp)).2
    have ih2 := ih (fun e1 h1 => hfmt e1 (by simp [h1]))
    simp only [dataLines, List.map_cons, List.filter_cons, f2, if_true, f3] at ih2 ⊢
    rw [ih2]
theorem countDates_of_appends (es : List (Str × Str))
    (hfmt : ∀ e ∈ es, isDate e.1 = true ∧ isTime e.2 = true)
    (hlen : (printlnAll (csvHeader :: dataLines es)).length < 2147483648) :
    countDates (printlnAll (csvHeader :: dataLines es)) =
      if (es.map Prod.fst).dedup.length ≤ MAX_DATES then Outcome.ok (tally (es.map Prod.fst))
      else Outcome.outOfBounds := by
  rw [countDates_eq _ hlen, countedDates_of_appends es hfmt, tally_length]

/-- C4, as amended: for (date, time) pairs in the formats `YYYY/MM/DD` and `HH:MM` appended
with `appendToCSV` to an absent or empty log, when the pairs show at most 50 different
dates (and the log stays below 2^31 characters), `countDates` on the resulting content
returns the dates in order of first occurrence, each with the number of appends made
with it, and no other entry. -/
theorem countDates_after_appends (fs : FS) (path : String) (es : List (Str × Str))
    (h0 : fs.files path = none ∨ fs.files path = some [])
    (hs : (appendAll fs path es).1 = true)
    (hfmt : ∀ e ∈ es, isDate e.1 = true ∧ isTime e.2 = true)
    (hcap : (es.map Prod.fst).dedup.length ≤ MAX_DATES)
    (hlen : (printlnAll (csvHeader :: dataLines es)).length < 2147483648) :
    countDates (((appendAll fs path es).2.files path).getD []) =
        Outcome.ok (tally (es.map Prod.fst)) ∧
      ∀ d, reported (tally (es.map Prod.fst)) d =
        if (es.map Prod.fst).count d = 0 then none else some ((es.map Prod.fst).count d) := by
  refine ⟨?_, fun d => reported_tally _ d⟩
  cases es with
  | nil =>
    have : ((appendAll fs path []).2.files path).getD [] = [] := by
      rcases h0 with h0 | h0 <;> simp [appendAll, h0]
    rw [this]
    exact countDates_nil
  | cons e es =>
    have hf : fs.fault path OpenMode.append = false := by
      simp only [appendAll, Bool.and_eq_true] at hs
      exact (appendToCSV_success_iff fs path e.1 e.2).1 hs.1
    rw [(appendAll_of_empty path fs e es hf h0).2, Option.getD_some,
      countDates_of_appends _ hfmt hlen, if_pos hcap]

theorem countDates_after_appends_witness :
    (emptyVolume.files csvPath = none ∨ emptyVolume.files csvPath = some []) ∧
    (appendAll emptyVolume csvPath exampleTouches).1 = true ∧
    (∀ e ∈ exampleTouches, isDate e.1 = true ∧ isTime e.2 = true) ∧
    (exampleTouches.map Prod.fst).dedup.length ≤ MAX_DATES ∧
    (printlnAll (csvHeader :: dataLines exampleTouches)).length < 2147483648 ∧
    (countDates (((appendAll emptyVolume csvPath exampleTouches).2.files csvPath).getD []) =
        Outcome.ok (tally (exampleTouches.map Prod.fst)) ∧
      ∀ d, reported (tally (exampleTouches.map Prod.fst)) d =
        if (exampleTouches.map Prod.fst).count d = 0 then none
        else some ((exampleTouches.map Prod.fst).count d)) ∧
    tally (exampleTouches.map Prod.fst) =
      [("2024/01/01".toList, 2), ("2024/01/02".toList, 1)] :=
  ⟨Or.inl rfl, by decide, by decide, by decide, by decide,
    countDates_after_appends emptyVolume csvPath exampleTouches (Or.inl rfl) (by decide)
      (by decide) (by decide) (by decide),
    by decide⟩

set_option maxRecDepth 100000 in
/-- C4 as stated fails: 51 appends in the required formats, each with a date of its own,
succeed on an empty volume, and `countDates` on the resulting log writes `dates[50]`,
past the end of its 50-element arrays, instead of returning the counts. -/
theorem countDates_after_51_dates :
    (∀ e ∈ yearlyTouches 51, isDate e.1 = true ∧ isTime e.2 = true) ∧
      (appendAll emptyVolume csvPath (yearlyTouches 51)).1 = true ∧
      countDates (((appendAll emptyVolume csvPath (yearlyTouches 51)).2.files csvPath).getD []) =
        Outcome.outOfBounds := by
  have hfmt : ∀ e ∈ yearlyTouches 51, isDate e.1 = true ∧ isTime e.2 = true := by decide
  have hok := appendAll_of_empty csvPath emptyVolume (yearlyTouches 51).head!
    (yearlyTouches 51).tail rfl (Or.inl rfl)
  have hcons : (yearlyTouches 51).head! :: (yearlyTouches 51).tail = yearlyTouches 51 := by
    decide
  rw [hcons] at hok
  refine ⟨hfmt, hok.1, ?_⟩
  rw [hok.2, Option.getD_some, countDates_of_appends _ hfmt (by decide)]
  decide

/-- C5 (the code departs from the claim): `countDates` has no test for lines with fewer
than two commas. On a log with a header, one data line and the line "garbage-no-commas",
it returns an entry with key "garbage-no-commas" and count 1 besides the entry of the
data line, whereas the same log without that line gives the data line's entry alone. -/
theorem countDates_counts_malformed_line :
    commaCount "garbage-no-commas".toList < 2 ∧
      isCounted "garbage-no-commas".toList = true ∧
      countDates "customer,date,time\r\n1,2024/01/01,09:00\r\ngarbage-no-commas\n".toList =
        Outcome.ok [("2024/01/01".toList, 1), ("garbage-no-commas".toList, 1)] ∧
      countDates "customer,date,time\r\n1,2024/01/01,09:00\r\n".toList =
        Outcome.ok [("2024/01/01".toList, 1)] ∧
      countDates "garbage-no-commas\n".toList = Outcome.ok [("garbage-no-commas".toList, 1)] := by
  refine ⟨by decide, by decide, by decide, by decide, by decide⟩

/-! ## Removing a date, then counting -/

theorem unlines_cons (l : Str) (ls : List Str) : unlines (l :: ls) = l ++ '\n' :: unlines ls := by
  simp [unlines]

theorem csvLines_unlines (ls : List Str) (h : ∀ l ∈ ls, '\n' ∉ l) :
    csvLines (unlines ls) = ls := by
  induction ls with
  | nil => simp [unlines, csvLines]
  | cons l ls ih =>
    rw [unlines_cons, csvLines_append_newline _ _ (h l (by simp)),
      ih (fun l1 h1 => h l1 (by simp [h1]))]

theorem fileLines_ne_nil (c : Char) (cs : Str) : fileLines (c :: cs) ≠ [] := by
  rw [fileLines_eq (c :: cs) (by simp)]
  simp

theorem not_mem_of_mem_fileLines (s : Str) : ∀ l ∈ fileLines s, '\n' ∉ l := by
  induction s with
  | nil => simp [fileLines]
  | cons c cs ih =>
    intro l hl
    by_cases hc : c = '\n'
    · simp only [fileLines, hc, if_true, List.mem_cons] at hl
      rcases hl with e | e
      · simp [e]
      · exact ih l e
    · simp only [fileLines, hc, if_false] at hl
      have hc2 : ¬ '\n' = c := fun e => hc e.symm
      cases hf : fileLines cs with
      | nil => rw [hf] at hl; simp at hl; simp [hl, hc2]
      | cons l1 ls =>
        rw [hf] at hl
        simp only [List.mem_cons] at hl
        rcases hl with e | e
        · have := ih l1 (by simp [hf]); simp [e, hc2, this]
        · exact ih l (by simp [hf, e])

theorem csvLines_eq_fileLines : ∀ (s : Str), isTerminated s = true → csvLines s = fileLines s
  | [], _ => rfl
  | [c], h => by
    have hc : c = '\n' := by simpa [isTerminated] using h
    simp [csvLines, fileLines, hc]
  | c :: c2 :: cs, h => by
    have ih := csvLines_eq_fileLines (c2 :: cs) (by simpa [isTerminated] using h)
    by_cases hc : c = '\n'
    · simp only [csvLines, fileLines, hc, if_true] at ih ⊢
      rw [ih]
    · have hne := fileLines_ne_nil c2 cs
      have e1 : csvLines (c :: c2 :: cs) =
          match csvLines (c2 :: cs) with
          | [] => []
          | l :: ls => (c :: l) :: ls := by
        rw [csvLines]; simp only [hc, if_false]
      have e2 : fileLines (c :: c2 :: cs) =
          match fileLines (c2 :: cs) with
          | [] => [[c]]
          | l :: ls => (c :: l) :: ls := by
        rw [fileLines]; simp only [hc, if_false]
      rw [e1, e2, ih]
      cases hf : fileLines (c2 :: cs) with
      | nil => exact absurd hf hne
      | cons l ls => rfl

theorem unlines_fileLines_length (s : Str) : (unlines (fileLines s)).length ≤ s.length + 1 := by
  induction s with
  | nil => simp [fileLines, unlines]
  | cons c cs ih =>
    by_cases hc : c = '\n'
    · simp only [fileLines, hc, if_true, unlines_cons, List.nil_append, List.length_cons]
      omega
    · simp only [fileLines, hc, if_false]
      cases hf : fileLines cs with
      | nil => simp [unlines]
      | cons l ls =>
        rw [hf] at ih
        simp only [unlines_cons, List.cons_append, List.length_cons, List.length_append] at ih ⊢
        omega

theorem unlines_filter_length (p : Str → Bool) (ls : List Str) :
    (unlines (ls.filter p)).length ≤ (unlines ls).length := by
  induction ls with
  | nil => simp
  | cons l ls ih =>
    by_cases hp : p l = true
    · simp only [List.filter_cons, hp, if_true, unlines_cons, List.length_append,
        List.length_cons]
      omega
    · simp only [List.filter_cons, hp, unlines_cons, List.length_append,
        List.length_cons]
      simp only [Bool.false_eq_true, if_false]
      omega

theorem dedup_filter_length_le (p : Str → Bool) (ds : List Str) :
    (ds.filter p).dedup.length ≤ ds.dedup.length := by
  rw [← List.card_toFinset, ← List.card_toFinset]
  apply Finset.card_le_card
  intro d hd
  simp only [List.mem_toFinset, List.mem_filter] at hd ⊢
  exact hd.1

theorem countDatesDate_of_two_commas (l : Str) (hl : l.length < 2147483648)
    (h2 : 2 ≤ commaCount l) : countDatesDate l = dateField l := by
  have hm : ',' ∈ l := ((two_le_commaCount_iff l).1 h2).1
  rw [countDatesDate_eq, extractDate_eq l hl, if_pos hm]

theorem retained_of_not_counted (inputDate l : Str) (h : isCounted l = false) :
    retained inputDate l = true := by
  unfold isCounted at h
  unfold retained
  cases h1 : l.isEmpty <;> cases h2 : startsWith l headerTag <;> simp_all

theorem retained_of_counted (inputDate l : Str) (h : isCounted l = true) :
    retained inputDate l =
      (decide (2 ≤ commaCount l) && decide (trim (dateField l) ≠ inputDate)) := by
  unfold isCounted at h
  unfold retained
  cases h1 : l.isEmpty <;> cases h2 : startsWith l headerTag <;> simp_all

theorem countedDates_unlines_filter (inputDate content : Str) :
    countedDates (unlines ((fileLines content).filter (retained inputDate))) =
      (((fileLines content).filter (retained inputDate)).filter isCounted).map countDatesDate := by
  unfold countedDates
  rw [csvLines_unlines _ (fun l hl =>
    not_mem_of_mem_fileLines content l (List.mem_filter.1 hl).1)]
theorem counted_after_remove (inputDate : Str) :
    ∀ (ls : List Str), (∀ l ∈ ls, l.length < 2147483648) →
      (∀ l ∈ ls, isCounted l = true →
        2 ≤ commaCount l ∧ trim (dateField l) = dateField l) →
      ((ls.filter (retained inputDate)).filter isCounted).map countDatesDate =
        ((ls.filter isCounted).map countDatesDate).filter (fun d => decide (d ≠ inputDate)) := by
  intro ls
  induction ls with
  | nil => intro _ _; rfl
  | cons l ls ih =>
    intro hlen hwf
    have ih2 := ih (fun l1 h1 => hlen l1 (by simp [h1])) (fun l1 h1 => hwf l1 (by simp [h1]))
    cases hc : isCounted l with
    | false =>
      have hr := retained_of_not_counted inputDate l hc
      simp only [List.filter_cons, hr, if_true, hc, Bool.false_eq_true, if_false]
      exact ih2
    | true =>
      obtain ⟨w1, w2⟩ := hwf l (by simp) hc
      have hd := countDatesDate_of_two_commas l (hlen l (by simp)) w1
      have hr := retained_of_counted inputDate l hc
      rw [w2, ← hd] at hr
      by_cases he : countDatesDate l = inputDate
      · have hr2 : retained inputDate l = false := by rw [hr]; simp [he]
        simp only [List.filter_cons, hr2, Bool.false_eq_true, if_false, hc, if_true,
          List.map_cons, he, ne_eq, not_true_eq_false, decide_False]
        exact ih2
      · have hr2 : retained inputDate l = true := by rw [hr]; simp [he, w1]
        simp only [List.filter_cons, hr2, if_true, hc, List.map_cons, he, ne_eq,
          not_false_eq_true, decide_True]
        rw [ih2]

theorem count_filter_ne (ds : List Str) (inputDate d : Str) (h : d ≠ inputDate) :
    (ds.filter (fun x => decide (x ≠ inputDate))).count d = ds.count d := by
  induction ds with
  | nil => rfl
  | cons x xs ih =>
    by_cases hx : x = inputDate
    · have hxd : (x == d) = false := by
        simp only [beq_eq_false_iff_ne, ne_eq]
        intro e; exact h (e.symm.trans hx)
      simp only [List.filter_cons, hx, ne_eq, not_true_eq_false, decide_False,
        Bool.false_eq_true, if_false, List.count_cons]
      rw [ih]
      have : (inputDate == d) = false := by rw [← hx]; exact hxd
      simp [this]
    · simp only [List.filter_cons, hx, ne_eq, not_false_eq_true, decide_True, if_true,
        List.count_cons, ih]

theorem not_mem_counted_after_remove (inputDate content : Str)
    (hlen : content.length < 2147483648) (hD : trim inputDate = inputDate) :
    inputDate ∉ (((fileLines content).filter (retained inputDate)).filter isCounted).map
      countDatesDate := by
  intro hm
  simp only [List.mem_map, List.mem_filter] at hm
  obtain ⟨l, ⟨⟨hl, hr⟩, hc⟩, he⟩ := hm
  rw [retained_of_counted inputDate l hc] at hr
  simp only [Bool.and_eq_true, decide_eq_true_eq] at hr
  have hll := length_le_of_mem_fileLines content l hl
  rw [countDatesDate_of_two_commas l (by omega) hr.1] at he
  rw [he] at hr
  exact hr.2 hD

/-- C3, as amended: after `removeLinesWithDate(path, D)` succeeds, (i) when `D` has no
white space at its ends, `countDates` on the new content, when it returns, reports no
entry for `D`; (ii) when the old content is empty or ends in a newline, and each of its
lines that is neither empty nor starts with "customer" has at least two commas and a
date field without white space at its ends, then `countDates` returning on the old
content returns on the new content too and reports every date other than `D` with the
count it had before. -/
theorem removeLinesWithDate_then_countDates (fs : FS) (path : String)
    (inputDate content : Str)
    (hfile : fs.files path = some content)
    (hr : fs.fault path OpenMode.read = false)
    (hw : fs.fault path OpenMode.write = false)
    (hlen : content.length < 2147483647) :
    ∃ newContent,
      (removeLinesWithDate fs path inputDate).map (fun r => (r.1, r.2.files path)) =
        some (true, some newContent) ∧
      (trim inputDate = inputDate →
        ∀ r1, countDates newContent = Outcome.ok r1 → reported r1 inputDate = none) ∧
      (isTerminated content = true →
        (∀ l ∈ fileLines content, isCounted l = true →
          2 ≤ commaCount l ∧ trim (dateField l) = dateField l) →
        ∀ r, countDates content = Outcome.ok r →
          ∃ r1, countDates newContent = Outcome.ok r1 ∧
            ∀ d, d ≠ inputDate → reported r1 d = reported r d) := by
  refine ⟨unlines ((fileLines content).filter (retained inputDate)),
    by rw [removeLinesWithDate_copies fs path inputDate content hfile hr hw,
      filter_copiesLine_eq inputDate content (by omega)], ?_, ?_⟩
  · intro hD r1 h1
    have hnew : (unlines ((fileLines content).filter (retained inputDate))).length
        < 2147483648 := by
      have a := unlines_filter_length (retained inputDate) (fileLines content)
      have b := unlines_fileLines_length content
      omega
    rw [countDates_eq _ hnew, countedDates_unlines_filter] at h1
    have hnm := not_mem_counted_after_remove inputDate content (by omega) hD
    split at h1
    · injection h1 with h1
      rw [← h1, reported_tally]
      have : List.count inputDate ((((fileLines content).filter (retained inputDate)).filter
          isCounted).map countDatesDate) = 0 := List.count_eq_zero_of_not_mem hnm
      rw [if_pos this]
    · cases h1
  · intro hterm hwf r h1
    have hnew : (unlines ((fileLines content).filter (retained inputDate))).length
        < 2147483648 := by
      have a := unlines_filter_length (retained inputDate) (fileLines content)
      have b := unlines_fileLines_length content
      omega
    have hcd : countedDates content = ((fileLines content).filter isCounted).map countDatesDate := by
      unfold countedDates; rw [csvLines_eq_fileLines content hterm]
    have hafter := counted_after_remove inputDate (fileLines content)
      (fun l hl => by have := length_le_of_mem_fileLines content l hl; omega) hwf
    rw [countDates_eq _ (by omega), hcd] at h1
    rw [countDates_eq _ hnew, countedDates_unlines_filter, hafter]
    split at h1
    · rename_i hcap
      injection h1 with h1
      have hcap2 : (tally ((((fileLines content).filter isCounted).map countDatesDate).filter
          (fun d => decide (d ≠ inputDate)))).length ≤ MAX_DATES := by
        rw [tally_length] at hcap ⊢
        exact le_trans (dedup_filter_length_le _ _) hcap
      refine ⟨_, by rw [if_pos hcap2], ?_⟩
      intro d hd
      rw [← h1, reported_tally, reported_tally, count_filter_ne _ _ _ hd]
    · cases h1
theorem removeLinesWithDate_then_countDates_witness :
    (volumeWith exampleLog).files csvPath = some exampleLog ∧
    (volumeWith exampleLog).fault csvPath OpenMode.read = false ∧
    (volumeWith exampleLog).fault csvPath OpenMode.write = false ∧
    exampleLog.length < 2147483647 ∧
    trim "2024/01/01".toList = "2024/01/01".toList ∧
    isTerminated exampleLog = true ∧
    (∀ l ∈ fileLines exampleLog, isCounted l = true →
      2 ≤ commaCount l ∧ trim (dateField l) = dateField l) ∧
    countDates exampleLog =
      Outcome.ok [("2024/01/01".toList, 2), ("2024/01/02".toList, 1)] ∧
    ∃ newContent,
      (removeLinesWithDate (volumeWith exampleLog) csvPath "2024/01/01".toList).map
          (fun r => (r.1, r.2.files csvPath)) = some (true, some newContent) ∧
      (∀ r1, countDates newContent = Outcome.ok r1 → reported r1 "2024/01/01".toList = none) ∧
      (∀ r, countDates exampleLog = Outcome.ok r →
        ∃ r1, countDates newContent = Outcome.ok r1 ∧
          ∀ d, d ≠ "2024/01/01".toList → reported r1 d = reported r d) :=
  ⟨by decide, by decide, by decide, by decide, by decide, by decide, by decide, by decide,
    match removeLinesWithDate_then_countDates (volumeWith exampleLog) csvPath
        "2024/01/01".toList exampleLog (by decide) (by decide) (by decide) (by decide) with
    | ⟨newContent, h1, h2, h3⟩ =>
      ⟨newContent, h1, h2 (by decide), h3 (by decide) (by decide)⟩⟩

/-- C3 as stated fails in four ways. (a) A line whose date field has blanks around the
date is removed with the date, so the count of the blank-padded date, another date
string, drops from 1 to no entry. (b) A line without commas is counted by `countDates`
and dropped by the removal, so its count drops from 1 to no entry. (c) A last line
without newline is not counted before the removal and is counted after it. (d) For a
date `D` that starts with a blank, a line with that date field stays and `countDates`
still reports `D`. -/
theorem removeLinesWithDate_changes_other_counts :
    ((removeLinesWithDate (volumeWith "1, 2024/01/01 ,09:00\n1,2024/01/02,08:00\n".toList)
          csvPath "2024/01/01".toList).map (fun r => (r.1, r.2.files csvPath)) =
        some (true, some "1,2024/01/02,08:00\n".toList) ∧
      " 2024/01/01 ".toList ≠ "2024/01/01".toList ∧
      countDates "1, 2024/01/01 ,09:00\n1,2024/01/02,08:00\n".toList =
        Outcome.ok [(" 2024/01/01 ".toList, 1), ("2024/01/02".toList, 1)] ∧
      countDates "1,2024/01/02,08:00\n".toList = Outcome.ok [("2024/01/02".toList, 1)] ∧
      reported [(" 2024/01/01 ".toList, 1), ("2024/01/02".toList, 1)] " 2024/01/01 ".toList ≠
        reported [("2024/01/02".toList, 1)] " 2024/01/01 ".toList) ∧
    ((removeLinesWithDate (volumeWith "garbage\n1,2024/01/02,08:00\n".toList)
          csvPath "2024/01/01".toList).map (fun r => (r.1, r.2.files csvPath)) =
        some (true, some "1,2024/01/02,08:00\n".toList) ∧
      "garbage".toList ≠ "2024/01/01".toList ∧
      countDates "garbage\n1,2024/01/02,08:00\n".toList =
        Outcome.ok [("garbage".toList, 1), ("2024/01/02".toList, 1)] ∧
      reported [("garbage".toList, 1), ("2024/01/02".toList, 1)] "garbage".toList ≠
        reported [("2024/01/02".toList, 1)] "garbage".toList) ∧
    ((removeLinesWithDate (volumeWith "1,2024/01/02,08:00".toList)
          csvPath "2024/01/01".toList).map (fun r => (r.1, r.2.files csvPath)) =
        some (true, some "1,2024/01/02,08:00\n".toList) ∧
      "2024/01/02".toList ≠ "2024/01/01".toList ∧
      countDates "1,2024/01/02,08:00".toList = Outcome.ok [] ∧
      reported [] "2024/01/02".toList ≠
        reported [("2024/01/02".toList, 1)] "2024/01/02".toList) ∧
    ((removeLinesWithDate (volumeWith "1, 2024/01/01,09:00\n".toList)
          csvPath " 2024/01/01".toList).map (fun r => (r.1, r.2.files csvPath)) =
        some (true, some "1, 2024/01/01,09:00\n".toList) ∧
      countDates "1, 2024/01/01,09:00\n".toList = Outcome.ok [(" 2024/01/01".toList, 1)] ∧
      reported [(" 2024/01/01".toList, 1)] " 2024/01/01".toList = some 1) := by
  refine ⟨⟨by decide, by decide, by decide, by decide, by decide⟩,
    ⟨by decide, by decide, by decide, by decide⟩,
    ⟨by decide, by decide, by decide, by decide⟩,
    ⟨by decide, by decide, by decide⟩⟩

/-! ## Startup: stored credentials -/

theorem initWiFi_of_empty_ssid (env : WiFiEnv) (fuel : Nat) (g : Globals) (h : g.ssid = []) :
    initWiFi env fuel g = some (false, g) := by
  simp [initWiFi, h]

/-- C11, as amended: at startup, if the stored ssid read by `readConfigFiles` is empty
(whatever the stored password is), `initWiFi` returns false without any call to the WiFi
driver, so without `WiFi.config` or `WiFi.begin`, and `setup` takes the access-point
branch, whose `WiFi.softAP` is the only driver call made. -/
theorem setup_without_ssid (env : WiFiEnv) (fuel : Nat) (fs : FS) (g : Globals)
    (h : readConfigFiles fs ssidPath = []) :
    initWiFi env fuel
        { g with ssid := readConfigFiles fs ssidPath, pass := readConfigFiles fs passPath } =
      some (false,
        { g with ssid := readConfigFiles fs ssidPath, pass := readConfigFiles fs passPath }) ∧
    setup env fuel fs g =
      some (Branch.accessPoint,
        { g with
          ssid := [], pass := readConfigFiles fs passPath,
          wifiCalls := g.wifiCalls ++ [WiFiCall.softAP] }) := by
  have h1 := initWiFi_of_empty_ssid env fuel
    { g with ssid := readConfigFiles fs ssidPath, pass := readConfigFiles fs passPath } h
  refine ⟨h1, ?_⟩
  unfold setup
  simp only [h1]
  simp [h]

theorem setup_without_ssid_witness :
    readConfigFiles (credentialVolume [] "secret\n".toList) ssidPath = [] ∧
    initWiFi promptEnv 5
        { Globals.init with
          ssid := readConfigFiles (credentialVolume [] "secret\n".toList) ssidPath,
          pass := readConfigFiles (credentialVolume [] "secret\n".toList) passPath } =
      some (false,
        { Globals.init with
          ssid := readConfigFiles (credentialVolume [] "secret\n".toList) ssidPath,
          pass := readConfigFiles (credentialVolume [] "secret\n".toList) passPath }) ∧
    setup promptEnv 5 (credentialVolume [] "secret\n".toList) Globals.init =
      some (Branch.accessPoint,
        { Globals.init with
          ssid := [], pass := readConfigFiles (credentialVolume [] "secret\n".toList) passPath,
          wifiCalls := Globals.init.wifiCalls ++ [WiFiCall.softAP] }) ∧
    readConfigFiles (credentialVolume [] "secret\n".toList) passPath = "secret".toList :=
  ⟨by decide,
    (setup_without_ssid promptEnv 5 (credentialVolume [] "secret\n".toList) Globals.init
      (by decide)).1,
    (setup_without_ssid promptEnv 5 (credentialVolume [] "secret\n".toList) Globals.init
      (by decide)).2,
    by decide⟩

/-- C11 as stated fails for an empty password: with the stored ssid "HomeNet" and an
empty stored password, `initWiFi` sets station mode, calls `WiFi.config` and
`WiFi.begin("HomeNet", "")`, and when the driver reports a connection it returns true
and `setup` takes the station branch, not the access-point branch. -/
theorem setup_with_empty_password :
    readConfigFiles (credentialVolume "HomeNet\n".toList []) ssidPath = "HomeNet".toList ∧
    readConfigFiles (credentialVolume "HomeNet\n".toList []) passPath = [] ∧
    initWiFi promptEnv 5 { Globals.init with ssid := "HomeNet".toList, pass := [] } =
      some (true,
        { ssid := "HomeNet".toList, pass := [], isConnectedWiFi := true, previousMillis := 0,
          wifiCalls := [WiFiCall.mode, WiFiCall.config, WiFiCall.begin "HomeNet".toList []] }) ∧
    setup promptEnv 5 (credentialVolume "HomeNet\n".toList []) Globals.init =
      some (Branch.station,
        { ssid := "HomeNet".toList, pass := [], isConnectedWiFi := true, previousMillis := 0,
          wifiCalls := [WiFiCall.mode, WiFiCall.config, WiFiCall.begin "HomeNet".toList []] }) := by
  refine ⟨by decide, by decide, by decide, by decide⟩

/-! ## The date aggregator: the list it builds -/

theorem tally_append_singleton (ds : List Str) (d : Str) :
    tally (ds ++ [d]) = bump (tally ds) d := by
  simp [tally, List.foldl_append]

theorem tally_keys_mem (ds : List Str) (d : Str) : d ∈ (tally ds).map Prod.fst ↔ d ∈ ds := by
  have := foldl_bump_keys_mem ds [] d
  simpa [tally] using this

theorem tally_keys_nodup (ds : List Str) : ((tally ds).map Prod.fst).Nodup :=
  foldl_bump_nodup ds [] (by simp)

theorem firstIndex_lt_length (d : Str) (ds : List Str) (h : d ∈ ds) :
    firstIndex d ds < ds.length := by
  induction ds with
  | nil => simp at h
  | cons x xs ih =>
    by_cases hx : x = d
    · simp [firstIndex, hx]
    · have : d ∈ xs := by
        rcases List.mem_cons.1 h with e | e
        · exact absurd e.symm hx
        · exact e
      simp only [firstIndex, hx, if_false, List.length_cons]
      have := ih this
      omega

theorem firstIndex_append_of_mem (d e : Str) (ds : List Str) (h : d ∈ ds) :
    firstIndex d (ds ++ [e]) = firstIndex d ds := by
  induction ds with
  | nil => simp at h
  | cons x xs ih =>
    by_cases hx : x = d
    · simp [firstIndex, hx]
    · have : d ∈ xs := by
        rcases List.mem_cons.1 h with e1 | e1
        · exact absurd e1.symm hx
        · exact e1
      have e2 := ih this
      show firstIndex d (x :: (xs ++ [e])) = firstIndex d (x :: xs)
      simp only [firstIndex, hx, if_false, e2]

theorem firstIndex_append_self (d : Str) (ds : List Str) (h : d ∉ ds) :
    firstIndex d (ds ++ [d]) = ds.length := by
  induction ds with
  | nil => simp [firstIndex]
  | cons x xs ih =>
    have hx : ¬ x = d := fun e => h (by simp [e])
    have hxs : d ∉ xs := fun e => h (by simp [e])
    have e2 := ih hxs
    show firstIndex d (x :: (xs ++ [d])) = (x :: xs).length
    simp only [firstIndex, hx, if_false, e2, List.length_cons]

theorem tally_keys_pairwise (ds : List Str) :
    ((tally ds).map Prod.fst).Pairwise (fun a b => firstIndex a ds < firstIndex b ds) := by
  induction ds using List.reverseRecOn with
  | nil => simp [tally]
  | append_singleton ds d ih =>
    rw [tally_append_singleton, bump_keys]
    have hold : ((tally ds).map Prod.fst).Pairwise
        (fun a b => firstIndex a (ds ++ [d]) < firstIndex b (ds ++ [d])) := by
      refine List.Pairwise.imp_of_mem ?_ ih
      intro a b ha hb hab
      rw [firstIndex_append_of_mem a d ds ((tally_keys_mem ds a).1 ha),
        firstIndex_append_of_mem b d ds ((tally_keys_mem ds b).1 hb)]
      exact hab
    by_cases hm : d ∈ (tally ds).map Prod.fst
    · rw [if_pos hm]; exact hold
    · rw [if_neg hm, List.pairwise_append]
      refine ⟨hold, by simp, ?_⟩
      intro a ha b hb
      have hb2 : b = d := by simpa using hb
      subst hb2
      have hnd : b ∉ ds := fun e => hm ((tally_keys_mem ds b).2 e)
      rw [firstIndex_append_of_mem a b ds ((tally_keys_mem ds a).1 ha),
        firstIndex_append_self b ds hnd]
      exact firstIndex_lt_length a ds ((tally_keys_mem ds a).1 ha)

theorem bump_counts_sum (o : JsonObject) (d : Str) :
    ((bump o d).map Prod.snd).sum = (o.map Prod.snd).sum + 1 := by
  induction o with
  | nil => simp [bump_nil]
  | cons p rest ih =>
    obtain ⟨k, v⟩ := p
    rw [bump_cons]
    by_cases hk : k = d
    · simp [hk]; omega
    · simp only [hk, if_false, List.map_cons, List.sum_cons, ih]; omega

theorem tally_counts_sum (ds : List Str) : ((tally ds).map Prod.snd).sum = ds.length := by
  induction ds using List.reverseRecOn with
  | nil => simp [tally]
  | append_singleton ds d ih =>
    rw [tally_append_singleton, bump_counts_sum, ih]; simp

theorem reported_of_mem (o : JsonObject) (h : (o.map Prod.fst).Nodup) :
    ∀ p ∈ o, reported o p.1 = some p.2 := by
  induction o with
  | nil => intro p hp; simp at hp
  | cons q rest ih =>
    obtain ⟨k, v⟩ := q
    intro p hp
    simp only [List.map_cons, List.nodup_cons] at h
    rcases List.mem_cons.1 hp with e | e
    · subst e; simp [reported, List.lookup]
    · have hne : ¬ p.1 = k := by
        intro e1
        exact h.1 (by rw [← e1]; exact List.mem_map_of_mem Prod.fst e)
      have hb : (p.1 == k) = false := by simp [hne]
      have := ih h.2 p e
      simp only [reported, List.lookup, hb] at this ⊢
      exact this

theorem count_eq_countP (d : Str) (ds : List Str) :
    ds.count d = ds.countP (fun x => decide (x = d)) := by
  induction ds with
  | nil => rfl
  | cons x xs ih =>
    by_cases hx : x = d
    · subst hx; simp [ih]
    · have hb : (x == d) = false := by simp [hx]
      simp [List.count_cons, List.countP_cons, hx, hb, ih]

theorem tally_count_of_mem (ds : List Str) :
    ∀ p ∈ tally ds, p.2 = ds.countP (fun x => decide (x = p.1)) := by
  intro p hp
  have h1 := reported_of_mem (tally ds) (tally_keys_nodup ds) p hp
  rw [reported_tally] at h1
  by_cases hc : ds.count p.1 = 0
  · rw [if_pos hc] at h1; cases h1
  · rw [if_neg hc] at h1
    injection h1 with h1
    rw [← h1, count_eq_countP]
theorem countedDates_eq_dateFields (csv : Str) (hlen : csv.length < 2147483648)
    (hwf : ∀ l ∈ processedLines csv, 2 ≤ commaCount l) :
    countedDates csv = (processedLines csv).map dateField := by
  unfold countedDates
  apply List.map_congr_left
  intro l hl
  have hmem : l ∈ csvLines csv := (List.mem_filter.1 hl).1
  have := length_le_of_mem_csvLines csv l hmem
  exact countDatesDate_of_two_commas l (by omega) (hwf l hl)

/-- C12, as amended: for every content below 2^31 characters whose processed lines (the
newline-terminated lines that are neither empty nor start with "customer"; what follows
the last newline is not processed) each have at least two commas and show at most 50
distinct date fields, `countDates` returns a list of (date, count) pairs in which the
dates are pairwise distinct, are exactly the date fields of the processed lines, appear
in order of first occurrence, and each count is the number of processed lines with that
date field; the counts sum to the number of processed lines. -/
theorem countDates_pairs (csv : Str) (hlen : csv.length < 2147483648)
    (hwf : ∀ l ∈ processedLines csv, 2 ≤ commaCount l)
    (hcap : ((processedLines csv).map dateField).dedup.length ≤ MAX_DATES) :
    ∃ r, countDates csv = Outcome.ok r ∧
      (r.map Prod.fst).Nodup ∧
      (∀ d, d ∈ r.map Prod.fst ↔ d ∈ (processedLines csv).map dateField) ∧
      (r.map Prod.fst).Pairwise (fun a b =>
        firstIndex a ((processedLines csv).map dateField) <
          firstIndex b ((processedLines csv).map dateField)) ∧
      (∀ p ∈ r, p.2 = (processedLines csv).countP (fun l => decide (dateField l = p.1))) ∧
      (r.map Prod.snd).sum = (processedLines csv).length := by
  have hds := countedDates_eq_dateFields csv hlen hwf
  refine ⟨tally ((processedLines csv).map dateField), ?_, tally_keys_nodup _,
    fun d => tally_keys_mem _ d, tally_keys_pairwise _, ?_, ?_⟩
  · rw [countDates_eq csv hlen, hds, tally_length, if_pos hcap]
  · intro p hp
    rw [tally_count_of_mem _ p hp, List.countP_map]
    rfl
  · rw [tally_counts_sum, List.length_map]

theorem countDates_pairs_witness :
    exampleLog.length < 2147483648 ∧
    (∀ l ∈ processedLines exampleLog, 2 ≤ commaCount l) ∧
    ((processedLines exampleLog).map dateField).dedup.length ≤ MAX_DATES ∧
    (∃ r, countDates exampleLog = Outcome.ok r ∧
      (r.map Prod.fst).Nodup ∧
      (∀ d, d ∈ r.map Prod.fst ↔ d ∈ (processedLines exampleLog).map dateField) ∧
      (r.map Prod.fst).Pairwise (fun a b =>
        firstIndex a ((processedLines exampleLog).map dateField) <
          firstIndex b ((processedLines exampleLog).map dateField)) ∧
      (∀ p ∈ r,
        p.2 = (processedLines exampleLog).countP (fun l => decide (dateField l = p.1))) ∧
      (r.map Prod.snd).sum = (processedLines exampleLog).length) ∧
    countDates exampleLog = Outcome.ok [("2024/01/01".toList, 2), ("2024/01/02".toList, 1)] ∧
    (processedLines exampleLog).map dateField =
      ["2024/01/01".toList, "2024/01/01".toList, "2024/01/02".toList] :=
  ⟨by decide, by decide, by decide,
    countDates_pairs exampleLog (by decide) (by decide) (by decide), by decide, by decide⟩

set_option maxRecDepth 100000 in
/-- C12 as stated fails in three ways. (a) On the log of 51 appends with 51 different
dates `countDates` writes `dates[50]`, past the end of its arrays, and builds no list.
(b) For the line "garbage", which has no comma and so no text between a first and a
second comma, `countDates` makes the entry ("garbage", 1), although no line has the date
field "garbage". (c) The text "1,2024/01/02,08:00" without newline splits into one line
that is neither empty nor a header, yet `countDates` processes no line and returns the
empty list. -/
theorem countDates_pairs_fail :
    ((countedDates (printlnAll (csvHeader :: dataLines (yearlyTouches 51)))).dedup.length = 51 ∧
      countDates (printlnAll (csvHeader :: dataLines (yearlyTouches 51))) =
        Outcome.outOfBounds) ∧
    (processedLines "garbage\n".toList = ["garbage".toList] ∧
      commaCount "garbage".toList = 0 ∧
      dateField "garbage".toList = [] ∧
      countDates "garbage\n".toList = Outcome.ok [("garbage".toList, 1)] ∧
      (processedLines "garbage\n".toList).countP
        (fun l => decide (dateField l = "garbage".toList)) = 0) ∧
    (fileLines "1,2024/01/02,08:00".toList = ["1,2024/01/02,08:00".toList] ∧
      isCounted "1,2024/01/02,08:00".toList = true ∧
      dateField "1,2024/01/02,08:00".toList = "2024/01/02".toList ∧
      processedLines "1,2024/01/02,08:00".toList = [] ∧
      countDates "1,2024/01/02,08:00".toList = Outcome.ok []) := by
  have hfmt : ∀ e ∈ yearlyTouches 51, isDate e.1 = true ∧ isTime e.2 = true := by decide
  refine ⟨⟨?_, ?_⟩, ⟨by decide, by decide, by decide, by decide, by decide⟩,
    ⟨by decide, by decide, by decide, by decide, by decide⟩⟩
  · rw [countedDates_of_appends _ hfmt]; decide
  · rw [countDates_of_appends _ hfmt (by decide)]; decide

/-! ## The date aggregator: capacity -/

theorem init_entries : DateTable.init.entries = [] := rfl

theorem tally_append (ds1 ds2 : List Str) : tally (ds1 ++ ds2) = ds2.foldl bump (tally ds1) := by
  simp [tally, List.foldl_append]

theorem tally_length_prefix (ds1 ds2 : List Str) :
    (tally ds1).length ≤ (tally (ds1 ++ ds2)).length := by
  rw [tally_append]; exact foldl_bump_length_le ds2 _

theorem tallyLines_init (lines : List Str)
    (h : (tally ((lines.filter isCounted).map countDatesDate)).length ≤ MAX_DATES) :
    ∃ t, tallyLines DateTable.init lines = Outcome.ok t ∧
      t.entries = tally ((lines.filter isCounted).map countDatesDate) ∧
      t.uniqueDateCount = (tally ((lines.filter isCounted).map countDatesDate)).length ∧
      t.uniqueDateCount ≤ MAX_DATES := by
  obtain ⟨r1, _⟩ := tallyLines_spec lines DateTable.init (by simp [DateTable.init])
  rw [init_entries] at r1
  obtain ⟨t, e1, e2, e3⟩ := r1 h
  refine ⟨t, e1, e2, ?_, e3⟩
  have : t.entries.length = t.uniqueDateCount := entriesFrom_length t 0 _
  rw [← this, e2]; rfl

theorem bump_length_of_incr (o o1 : JsonObject) (d : Str) (h : incr d o = some o1) :
    (bump o d).length = o.length := by
  unfold bump; rw [h]; exact incr_length d o o1 h

theorem bump_length_of_not_incr (o : JsonObject) (d : Str) (h : incr d o = none) :
    (bump o d).length = o.length + 1 := by
  unfold bump; rw [h]; simp

theorem new_date_write_index (pre : List Str) (line : Str) (t t1 : DateTable)
    (ht : t.entries = tally ((pre.filter isCounted).map countDatesDate))
    (hn : t.uniqueDateCount = (tally ((pre.filter isCounted).map countDatesDate)).length)
    (hic : isCounted line = true)
    (hs : searchDates (countDatesDate line) t t.uniqueDateCount 0 = Outcome.ok (t1, false)) :
    t1 = t ∧
      (tally (((pre ++ [line]).filter isCounted).map countDatesDate)).length =
        t.uniqueDateCount + 1 := by
  have hdates : ((pre ++ [line]).filter isCounted).map countDatesDate =
      (pre.filter isCounted).map countDatesDate ++ [countDatesDate line] := by
    simp [List.filter_append, List.filter_cons, hic]
  have key : ∀ (r i : Nat) (t2 : DateTable), searchDates (countDatesDate line) t r i =
      Outcome.ok (t2, false) → t2 = t ∧ incr (countDatesDate line) (t.entriesFrom i r) = none := by
    intro r
    induction r with
    | zero => intro i t2 h; simp [searchDates] at h; exact ⟨h.symm, rfl⟩
    | succ r ih =>
      intro i t2 h
      by_cases hlt : i < MAX_DATES
      · by_cases hd : t.dates i = countDatesDate line
        · simp [searchDates, hlt, hd] at h
        · simp only [searchDates, hlt, if_true, hd, if_false] at h
          obtain ⟨a, b⟩ := ih (i + 1) t2 h
          refine ⟨a, ?_⟩
          rw [entriesFrom_succ]
          simp [incr, hd, b]
      · simp [searchDates, hlt] at h
  obtain ⟨a, b⟩ := key t.uniqueDateCount 0 t1 hs
  refine ⟨a, ?_⟩
  rw [hdates, tally_append]
  simp only [List.foldl_cons, List.foldl_nil]
  have hb : incr (countDatesDate line) (tally ((pre.filter isCounted).map countDatesDate)) =
      none := by rw [← ht]; exact b
  rw [bump_length_of_not_incr _ _ hb, hn]

theorem overrun_iteration :
    ∀ (lines : List Str),
      MAX_DATES < (tally ((lines.filter isCounted).map countDatesDate)).length →
      ∃ pre line post t, lines = pre ++ line :: post ∧ isCounted line = true ∧
        tallyLines DateTable.init pre = Outcome.ok t ∧ t.uniqueDateCount = MAX_DATES ∧
        searchDates (countDatesDate line) t t.uniqueDateCount 0 = Outcome.ok (t, false) := by
  intro lines
  induction lines using List.reverseRecOn with
  | nil => intro h; simp [tally, MAX_DATES] at h
  | append_singleton L l ih =>
    intro h
    by_cases hL : MAX_DATES < (tally ((L.filter isCounted).map countDatesDate)).length
    · obtain ⟨pre, line, post, t, e1, e2, e3, e4, e5⟩ := ih hL
      exact ⟨pre, line, post ++ [l], t, by rw [e1]; simp, e2, e3, e4, e5⟩
    · have hL2 : (tally ((L.filter isCounted).map countDatesDate)).length ≤ MAX_DATES := by omega
      cases hic : isCounted l with
      | false =>
        have : ((L ++ [l]).filter isCounted).map countDatesDate =
            (L.filter isCounted).map countDatesDate := by
          simp [List.filter_append, List.filter_cons, hic]
        rw [this] at h
        omega
      | true =>
        have hdates : ((L ++ [l]).filter isCounted).map countDatesDate =
            (L.filter isCounted).map countDatesDate ++ [countDatesDate l] := by
          simp [List.filter_append, List.filter_cons, hic]
        rw [hdates, tally_append] at h
        simp only [List.foldl_cons, List.foldl_nil] at h
        obtain ⟨t, e1, e2, e3, e4⟩ := tallyLines_init L hL2
        obtain ⟨t1, found, s1, s2, s3, s4, s5, s6⟩ :=
          searchDates_spec (countDatesDate l) t t.uniqueDateCount 0 (by omega)
        cases found with
        | true =>
          have hi := s5 rfl
          have : incr (countDatesDate l) t.entries = some (t1.entriesFrom 0 t.uniqueDateCount) := hi
          rw [e2] at this
          rw [bump_length_of_incr _ _ _ this] at h
          omega
        | false =>
          obtain ⟨a, b⟩ := s6 rfl
          subst a
          have hb : incr (countDatesDate l)
              (tally ((L.filter isCounted).map countDatesDate)) = none := by
            rw [← e2]; exact b
          rw [bump_length_of_not_incr _ _ hb] at h
          exact ⟨L, l, [], t1, rfl, hic, e1, by omega, s1⟩
/-- Capacity in terms of the dates `countDates` itself extracts: with at most 50 of them
the table index stays below `MAX_DATES` in every iteration, with more than 50 some
iteration writes at index 50. -/
theorem countDates_capacity_of_counted (csv : Str) (hlen : csv.length < 2147483648) :
    ((countedDates csv).dedup.length ≤ MAX_DATES →
      (∃ t r, countDatesLoop csv (csv.length + 1) 0 DateTable.init = Outcome.ok t ∧
        t.uniqueDateCount ≤ MAX_DATES ∧ countDates csv = Outcome.ok r) ∧
      ∀ pre line post, csvLines csv = pre ++ line :: post → isCounted line = true →
        ∃ t, tallyLines DateTable.init pre = Outcome.ok t ∧ t.uniqueDateCount ≤ MAX_DATES ∧
          ∀ t1, searchDates (countDatesDate line) t t.uniqueDateCount 0 =
              Outcome.ok (t1, false) → t.uniqueDateCount < MAX_DATES) ∧
    (MAX_DATES < (countedDates csv).dedup.length →
      countDates csv = Outcome.outOfBounds ∧
      ∃ pre line post t, csvLines csv = pre ++ line :: post ∧ isCounted line = true ∧
        tallyLines DateTable.init pre = Outcome.ok t ∧ t.uniqueDateCount = MAX_DATES ∧
        searchDates (countDatesDate line) t t.uniqueDateCount 0 = Outcome.ok (t, false)) := by
  constructor
  · intro hcap
    have hcap2 : (tally (countedDates csv)).length ≤ MAX_DATES := by
      rw [tally_length]; exact hcap
    refine ⟨?_, ?_⟩
    · obtain ⟨t, e1, _, _, e4⟩ := tallyLines_init (csvLines csv) hcap2
      exact ⟨t, tally (countedDates csv), by rw [countDatesLoop_start csv hlen]; exact e1, e4,
        by rw [countDates_eq csv hlen, if_pos hcap2]⟩
    · intro pre line post hsplit hic
      have hd : countedDates csv =
          ((pre ++ [line]).filter isCounted).map countDatesDate ++
            (post.filter isCounted).map countDatesDate := by
        unfold countedDates
        rw [hsplit]
        simp [List.filter_append, List.filter_cons, hic]
      have hd0 : ((pre ++ [line]).filter isCounted).map countDatesDate =
          (pre.filter isCounted).map countDatesDate ++ [countDatesDate line] := by
        simp [List.filter_append, List.filter_cons, hic]
      have h1 : (tally (((pre ++ [line]).filter isCounted).map countDatesDate)).length
          ≤ MAX_DATES := by
        have := tally_length_prefix (((pre ++ [line]).filter isCounted).map countDatesDate)
          ((post.filter isCounted).map countDatesDate)
        rw [← hd] at this
        omega
      have h0 : (tally ((pre.filter isCounted).map countDatesDate)).length ≤ MAX_DATES := by
        have := tally_length_prefix ((pre.filter isCounted).map countDatesDate)
          [countDatesDate line]
        rw [← hd0] at this
        omega
      obtain ⟨t, e1, e2, e3, e4⟩ := tallyLines_init pre h0
      refine ⟨t, e1, e4, ?_⟩
      intro t1 hs
      have := (new_date_write_index pre line t t1 e2 e3 hic hs).2
      omega
  · intro hover
    have hover2 : MAX_DATES < (tally (countedDates csv)).length := by
      rw [tally_length]; exact hover
    refine ⟨by rw [countDates_eq csv hlen, if_neg (by omega)], ?_⟩
    exact overrun_iteration (csvLines csv) hover2

/-! ## The shape of reachable logs -/

theorem fileLines_append_newline (l rest : Str) (h : '\n' ∉ l) :
    fileLines (l ++ '\n' :: rest) = l :: fileLines rest := by
  induction l with
  | nil => simp [fileLines]
  | cons c cs ih =>
    have h1 : c ≠ '\n' := fun e => h (by simp [e])
    have h2 : '\n' ∉ cs := fun e => h (by simp [e])
    have e := ih h2
    show fileLines (c :: (cs ++ '\n' :: rest)) = (c :: cs) :: fileLines rest
    simp only [fileLines, h1, if_false, e]

theorem fileLines_unlines (ls : List Str) (h : ∀ l ∈ ls, '\n' ∉ l) :
    fileLines (unlines ls) = ls := by
  induction ls with
  | nil => simp [unlines, fileLines]
  | cons l ls ih =>
    rw [unlines_cons, fileLines_append_newline _ _ (h l (by simp)),
      ih (fun l1 h1 => h l1 (by simp [h1]))]

theorem unlines_append (a b : List Str) : unlines (a ++ b) = unlines a ++ unlines b := by
  induction a with
  | nil => simp [unlines]
  | cons l ls ih => simp [unlines, ih]

theorem printlnAll_eq_unlines (ls : List Str) :
    printlnAll ls = unlines (ls.map (fun l => l ++ ['\r'])) := by
  induction ls with
  | nil => rfl
  | cons l ls ih => simp [printlnAll, println, unlines, ih]

theorem isUpToCR_snoc (text line : Str) (h : IsUpToCR text line) :
    IsUpToCR text (line ++ ['\r']) := by
  obtain ⟨k, hk⟩ := h
  refine ⟨k + 1, ?_⟩
  rw [hk, List.replicate_succ', List.append_assoc]

theorem isUpToCR_no_newline (text line : Str) (h : IsUpToCR text line) (ht : '\n' ∉ text) :
    '\n' ∉ line := by
  obtain ⟨k, hk⟩ := h
  rw [hk]
  intro hm
  rcases List.mem_append.1 hm with r | r
  · exact ht r
  · have := List.eq_of_mem_replicate r
    exact absurd this (by decide)

theorem extractDate_two_commas (a b rest : Str) (ha : ',' ∉ a) (hb : ',' ∉ b)
    (hlen : a.length + b.length + 2 < 4294967296) :
    extractDate (a ++ ',' :: (b ++ ',' :: rest)) = b := by
  unfold extractDate indexOf
  have h1 : indexOfFrom (a ++ ',' :: (b ++ ',' :: rest)) ',' 0 = ((a.length : Nat) : Int) := by
    rw [indexOfFrom_eq]
    simp only [List.drop_zero, Nat.zero_add]
    rw [if_pos (by simp), takeWhile_append_of_not_mem ',' a _ ha]
  rw [h1]
  simp only []
  have e1 : ((a.length : Nat) : Int) + 1 = ((a.length + 1 : Nat) : Int) := by simp
  rw [e1, toUnsigned_natCast _ (by omega)]
  have hdrop : (a ++ ',' :: (b ++ ',' :: rest)).drop (a.length + 1) = b ++ ',' :: rest := by
    have : a ++ ',' :: (b ++ ',' :: rest) = (a ++ [',']) ++ (b ++ ',' :: rest) := by simp
    rw [this, List.drop_append_of_le_length (by simp)]
    simp
  have h2 : indexOfFrom (a ++ ',' :: (b ++ ',' :: rest)) ',' (a.length + 1) =
      ((a.length + 1 + b.length : Nat) : Int) := by
    rw [indexOfFrom_eq, hdrop, if_pos (by simp), takeWhile_append_of_not_mem ',' b _ hb]
  rw [h2, toUnsigned_natCast _ (by omega), substring_eq _ _ _ (by omega), hdrop,
    Nat.add_sub_cancel_left, List.take_left']
  rfl

theorem header_facts (h : Str) (hh : IsUpToCR csvHeader h) :
    startsWith h headerTag = true ∧ extractDate h = "date".toList ∧ '\n' ∉ h := by
  obtain ⟨k, hk⟩ := hh
  refine ⟨?_, ?_, isUpToCR_no_newline csvHeader h ⟨k, hk⟩ (by decide)⟩
  · rw [hk]
    simp [startsWith, headerTag, csvHeader, List.take]
  · have e : h = "customer".toList ++ ',' :: ("date".toList ++ ',' ::
        ("time".toList ++ List.replicate k '\r')) := by
      rw [hk]; simp [csvHeader]
    rw [e]
    exact extractDate_two_commas _ _ _ (by decide) (by decide) (by decide)

theorem isDate_ne_date (d : Str) (h : isDate d = true) : "date".toList ≠ d := by
  intro e
  have := (isDate_facts d h).1
  rw [← e] at this
  exact absurd this (by decide)

theorem dataLine_no_newline (d t l : Str) (hd : isDate d = true) (ht : isTime t = true)
    (hl : IsUpToCR (dataLine d t) l) : '\n' ∉ l :=
  isUpToCR_no_newline _ _ hl (dataLine_facts d t hd ht).1

theorem logShape_lines (h : Str) (ls : List Str) (hh : IsUpToCR csvHeader h)
    (hls : ∀ l ∈ ls, ∃ d t, isDate d = true ∧ isTime t = true ∧ IsUpToCR (dataLine d t) l) :
    fileLines (unlines (h :: ls)) = h :: ls := by
  apply fileLines_unlines
  intro l hl
  rcases List.mem_cons.1 hl with e | e
  · subst e; exact (header_facts l hh).2.2
  · obtain ⟨d, t, hd, ht, hl2⟩ := hls l e
    exact dataLine_no_newline d t l hd ht hl2

theorem logShape_after_append (log : Option Str) (d t : Str) (hd : isDate d = true)
    (ht : isTime t = true) (h : LogShape log) :
    LogShape (some (log.getD [] ++ (if (log.getD []).length = 0 then println csvHeader else []) ++
      println (dataLine d t))) := by
  right; right
  have hnew : ∃ d1 t1, isDate d1 = true ∧ isTime t1 = true ∧
      IsUpToCR (dataLine d1 t1) (dataLine d t ++ ['\r']) :=
    ⟨d, t, hd, ht, 1, rfl⟩
  rcases h with h | h | ⟨hdr, ls, h1, h2, h3⟩
  · subst h
    refine ⟨csvHeader ++ ['\r'], [dataLine d t ++ ['\r']], ?_, ⟨1, rfl⟩, ?_⟩
    · simp [println, unlines]
    · intro l hl
      have : l = dataLine d t ++ ['\r'] := by simpa using hl
      subst this; exact hnew
  · subst h
    refine ⟨csvHeader ++ ['\r'], [dataLine d t ++ ['\r']], ?_, ⟨1, rfl⟩, ?_⟩
    · simp [println, unlines]
    · intro l hl
      have : l = dataLine d t ++ ['\r'] := by simpa using hl
      subst this; exact hnew
  · subst h1
    refine ⟨hdr, ls ++ [dataLine d t ++ ['\r']], ?_, h2, ?_⟩
    · have hne : ¬ (unlines (hdr :: ls)).length = 0 := by simp [unlines]
      simp only [Option.getD_some, hne, if_false, List.append_nil]
      have : hdr :: (ls ++ [dataLine d t ++ ['\r']]) = (hdr :: ls) ++ [dataLine d t ++ ['\r']] := by
        simp
      rw [this, unlines_append]
      simp [println, unlines]
    · intro l hl
      rcases List.mem_append.1 hl with e | e
      · exact h3 l e
      · have : l = dataLine d t ++ ['\r'] := by simpa using e
        subst this; exact hnew

theorem logShape_after_removeLatest (c D : Str) (hD : isDate D = true) (h : LogShape (some c)) :
    LogShape (some (printlnAll
      ((fileLines c).eraseP (fun l => decide (extractDate l = D))))) := by
  rcases h with h | h | ⟨hdr, ls, h1, h2, h3⟩
  · cases h
  · injection h with h; subst h
    right; left; simp [fileLines, printlnAll]
  · injection h1 with h1; subst h1
    right; right
    rw [logShape_lines hdr ls h2 h3]
    have hne : ¬ extractDate hdr = D := by
      rw [(header_facts hdr h2).2.1]; exact isDate_ne_date D hD
    have he : (hdr :: ls).eraseP (fun l => decide (extractDate l = D)) =
        hdr :: ls.eraseP (fun l => decide (extractDate l = D)) := by
      simp [List.eraseP_cons, hne]
    rw [he, printlnAll_eq_unlines]
    refine ⟨hdr ++ ['\r'],
      (ls.eraseP (fun l => decide (extractDate l = D))).map (fun l => l ++ ['\r']), by simp,
      isUpToCR_snoc _ _ h2, ?_⟩
    intro l hl
    obtain ⟨l0, hl0, rfl⟩ := List.mem_map.1 hl
    obtain ⟨d, t, hd, ht, hl2⟩ := h3 l0 (List.mem_of_mem_eraseP hl0)
    exact ⟨d, t, hd, ht, isUpToCR_snoc _ _ hl2⟩

theorem logShape_after_removeLines (c D : Str) (h : LogShape (some c)) :
    LogShape (some (unlines ((fileLines c).filter (copiesLine D)))) := by
  rcases h with h | h | ⟨hdr, ls, h1, h2, h3⟩
  · cases h
  · injection h with h; subst h
    right; left; simp [fileLines, unlines]
  · injection h1 with h1; subst h1
    right; right
    rw [logShape_lines hdr ls h2 h3]
    have hc : copiesLine D hdr = true := by
      simp [copiesLine, (header_facts hdr h2).1]
    refine ⟨hdr, ls.filter (copiesLine D), by simp [List.filter_cons, hc], h2, ?_⟩
    intro l hl
    exact h3 l (List.mem_filter.1 hl).1
theorem applyOp_logShape (fs : FS) (op : LogOp) (hop : op.inFormat = true)
    (h : LogShape (fs.files csvPath)) : LogShape ((applyOp fs op).files csvPath) := by
  cases op with
  | append d t =>
    simp only [LogOp.inFormat, Bool.and_eq_true] at hop
    by_cases hf : fs.fault csvPath OpenMode.append = true
    · have : (appendToCSV fs csvPath d t).2 = fs := by
        simp [appendToCSV, LittleFS.openFile, hf]
      simp only [applyOp, this]; exact h
    · have hf2 : fs.fault csvPath OpenMode.append = false := by simpa using hf
      simp only [applyOp, (appendToCSV_of_no_fault fs csvPath d t hf2).2.2]
      exact logShape_after_append _ d t hop.1 hop.2 h
  | removeLatest D =>
    simp only [LogOp.inFormat] at hop
    simp only [applyOp]
    cases hfile : fs.files csvPath with
    | none =>
      have : removeLatestEntryOnDate fs csvPath D = some (false, fs) := by
        unfold removeLatestEntryOnDate LittleFS.openFile
        by_cases hf : fs.fault csvPath OpenMode.read = true <;> simp [hf, hfile]
      simp only [this, hfile]; left; trivial
    | some c =>
      by_cases hr : fs.fault csvPath OpenMode.read = true
      · have : removeLatestEntryOnDate fs csvPath D = some (false, fs) := by
          simp [removeLatestEntryOnDate, LittleFS.openFile, hr]
        simp only [this]; exact h
      · by_cases hw : fs.fault tempPath OpenMode.write = true
        · have : removeLatestEntryOnDate fs csvPath D = some (false, fs) := by
            simp [removeLatestEntryOnDate, LittleFS.openFile, hr, hw, hfile]
          simp only [this]; exact h
        · have hc := removeLatestEntryOnDate_content fs csvPath D c hfile (by simpa using hr)
            (by simpa using hw) (by decide)
          cases hres : removeLatestEntryOnDate fs csvPath D with
          | none => rw [hres] at hc; simp at hc
          | some r =>
            rw [hres] at hc
            simp only [Option.map_some', Option.some.injEq, Prod.mk.injEq] at hc
            simp only [hc.2]
            rw [hfile] at h
            exact logShape_after_removeLatest c D hop h
  | removeLines D =>
    simp only [applyOp]
    cases hfile : fs.files csvPath with
    | none =>
      have : removeLinesWithDate fs csvPath D = some (false, fs) := by
        unfold removeLinesWithDate LittleFS.openFile
        by_cases hf : fs.fault csvPath OpenMode.read = true <;> simp [hf, hfile]
      simp only [this, hfile]; left; trivial
    | some c =>
      by_cases hr : fs.fault csvPath OpenMode.read = true
      · have : removeLinesWithDate fs csvPath D = some (false, fs) := by
          simp [removeLinesWithDate, LittleFS.openFile, hr]
        simp only [this]; exact h
      · by_cases hw : fs.fault csvPath OpenMode.write = true
        · have : removeLinesWithDate fs csvPath D = some (false, fs) := by
            simp [removeLinesWithDate, LittleFS.openFile, hr, hw, hfile,
              removeLinesLoop_eq D _ c [] (le_refl _)]
          simp only [this]; exact h
        · have hc := removeLinesWithDate_copies fs csvPath D c hfile (by simpa using hr)
            (by simpa using hw)
          cases hres : removeLinesWithDate fs csvPath D with
          | none => rw [hres] at hc; simp at hc
          | some r =>
            rw [hres] at hc
            simp only [Option.map_some', Option.some.injEq, Prod.mk.injEq] at hc
            simp only [hc.2]
            rw [hfile] at h
            exact logShape_after_removeLines c D h
  | clear =>
    simp only [applyOp]
    by_cases hw : fs.fault csvPath OpenMode.write = true
    · have : (clearFile fs csvPath).2 = fs := by simp [clearFile, LittleFS.openFile, hw]
      rw [this]; exact h
    · have : (clearFile fs csvPath).2.files csvPath = some [] := by
        simp [clearFile, LittleFS.openFile, hw, FS.store]
      rw [this]; right; left; rfl
  | storage fault => exact h

theorem runOps_logShape :
    ∀ (ops : List LogOp) (fs : FS), LogShape (fs.files csvPath) →
      (∀ op ∈ ops, op.inFormat = true) → LogShape ((runOps fs ops).files csvPath) := by
  intro ops
  induction ops with
  | nil => intro fs h _; exact h
  | cons op ops ih =>
    intro fs h hops
    exact ih (applyOp fs op) (applyOp_logShape fs op (hops op (by simp)) h)
      (fun o ho => hops o (by simp [ho]))

/-- What does hold of every log reached from an absent or empty log by calls with dates
and times in their formats, whatever the storage refuses in between: the log is absent,
empty, or a header line followed by data lines "1,date,time", each line ended by a
newline and carrying nothing but carriage returns after its text. -/
theorem reachable_log_shape (fs : FS) (ops : List LogOp)
    (h0 : fs.files csvPath = none ∨ fs.files csvPath = some [])
    (hops : ∀ op ∈ ops, op.inFormat = true) :
    LogShape ((runOps fs ops).files csvPath) := by
  apply runOps_logShape ops fs _ hops
  rcases h0 with h | h
  · left; exact h
  · right; left; exact h

/-- C13 (the code departs from the claim): the log reached from an empty volume by
`appendToCSV("2024/01/01", "09:00")` followed by `removeLatestEntryOnDate("2024/01/02")`,
both with arguments in the required formats, is not a header line followed by other
lines: `removeLatestEntryOnDate` wrote every line back with `println`, so the first line
is "customer,date,time" plus a carriage return, and the data line carries one too. -/
theorem reachable_log_header_gains_cr :
    (∀ op ∈ [LogOp.append "2024/01/01".toList "09:00".toList,
        LogOp.removeLatest "2024/01/02".toList], op.inFormat = true) ∧
    (runOps emptyVolume [LogOp.append "2024/01/01".toList "09:00".toList]).files csvPath =
      some (printlnAll [csvHeader, "1,2024/01/01,09:00".toList]) ∧
    (runOps emptyVolume [LogOp.append "2024/01/01".toList "09:00".toList,
        LogOp.removeLatest "2024/01/02".toList]).files csvPath =
      some (printlnAll ["customer,date,time\r".toList, "1,2024/01/01,09:00\r".toList]) ∧
    fileLines (printlnAll ["customer,date,time\r".toList, "1,2024/01/01,09:00\r".toList]) =
      ["customer,date,time\r\r".toList, "1,2024/01/01,09:00\r\r".toList] ∧
    ¬ ∃ ls, printlnAll ["customer,date,time\r".toList, "1,2024/01/01,09:00\r".toList] =
      printlnAll (csvHeader :: ls) := by
  refine ⟨by decide, by decide, by decide, by decide, ?_⟩
  rintro ⟨ls, h⟩
  have h2 := congrArg (fun c => c.take 20) h
  have e : (printlnAll (csvHeader :: ls)).take 20 = "customer,date,time\r\n".toList := by
    have : printlnAll (csvHeader :: ls) = "customer,date,time\r\n".toList ++ printlnAll ls := by
      simp [printlnAll, println, csvHeader]
    rw [this, List.take_append_of_le_length (by decide)]
    decide
  simp only [e] at h2
  exact absurd h2 (by decide)

/-! ## The touch monitor -/

theorem decimalAux_length (fuel : Nat) :
    ∀ (n k : Nat), n < 10 ^ (k + 1) → (decimalAux fuel n).length ≤ k + 1 := by
  induction fuel with
  | zero => intro n k _; simp [decimalAux]
  | succ fuel ih =>
    intro n k h
    by_cases h10 : n < 10
    · simp [decimalAux, h10]
    · cases k with
      | zero => simp at h; omega
      | succ k =>
        have hq : n / 10 < 10 ^ (k + 1) := by
          rw [Nat.div_lt_iff_lt_mul (by decide)]
          calc n < 10 ^ (k + 1 + 1) := h
            _ = 10 ^ (k + 1) * 10 := by rw [Nat.pow_succ]
        have := ih (n / 10) k hq
        simp only [decimalAux, h10, if_false, List.length_append, List.length_singleton]
        omega

theorem twoDigits_length (n : Nat) (h : n < 100) : (twoDigits n).length ≤ 2 := by
  unfold twoDigits
  by_cases h10 : n < 10
  · simp [h10]
  · simp only [h10, if_false]
    exact decimalAux_length n n 1 (by simpa using h)

theorem formats_fit (timeInfo : Tm) (h : timeInfo.fitsBuffers = true) :
    getDate timeInfo =
        some (decimal (timeInfo.tm_year + 1900) ++ ['/'] ++ twoDigits (timeInfo.tm_mon + 1) ++
          ['/'] ++ twoDigits timeInfo.tm_mday) ∧
      getTime timeInfo =
        some (twoDigits timeInfo.tm_hour ++ [':'] ++ twoDigits timeInfo.tm_min) := by
  simp only [Tm.fitsBuffers, Bool.and_eq_true, decide_eq_true_eq] at h
  obtain ⟨⟨⟨⟨hy, hm⟩, hd⟩, hh⟩, hmin⟩ := h
  have l1 : (decimal (timeInfo.tm_year + 1900)).length ≤ 4 :=
    decimalAux_length _ _ 3 (by simpa using hy)
  have l2 := twoDigits_length _ hm
  have l3 := twoDigits_length _ hd
  have l4 := twoDigits_length _ hh
  have l5 := twoDigits_length _ hmin
  constructor
  · unfold getDate strftime
    rw [if_pos]
    simp only [List.length_append, List.length_singleton]
    omega
  · unfold getTime strftime
    rw [if_pos]
    simp only [List.length_append, List.length_singleton]
    omega

theorem loop_first_touch_without_time (d : Device) (r : Reading)
    (hw : d.isConnectedWiFi = true) (ht : d.isTouched = false) (hr : r.touchValue < threshold)
    (hl : r.localTime = none) :
    loop d r = some { d with isTouched := true } := by
  unfold loop onTouch
  simp only [hw, ht, hr, hl, if_true, Bool.true_eq_false, Bool.false_eq_true, if_false]

theorem loop_first_touch_with_time (d : Device) (r : Reading) (timeInfo : Tm) (date time : Str)
    (hw : d.isConnectedWiFi = true) (ht : d.isTouched = false) (hr : r.touchValue < threshold)
    (hl : r.localTime = some timeInfo)
    (hd : getDate timeInfo = some date) (htm : getTime timeInfo = some time) :
    loop d r = some
      { d with
        fs := (appendToCSV d.fs csvPath date time).2,
        appendCalls := d.appendCalls ++ [(date, time)],
        isTouched := true } := by
  unfold loop onTouch
  simp only [hw, ht, hr, hl, hd, htm, if_true, Bool.true_eq_false, Bool.false_eq_true, if_false]

theorem runLoop_held (rs : List Reading) :
    ∀ d : Device, d.isConnectedWiFi = true → d.isTouched = true →
      (∀ r ∈ rs, r.touchValue ≤ threshold) →
      ∃ d1, runLoop d rs = some d1 ∧ d1.isTouched = true ∧ d1.isConnectedWiFi = true ∧
        d1.appendCalls = d.appendCalls ∧ d1.fs = d.fs := by
  induction rs with
  | nil => intro d hw ht _; exact ⟨d, rfl, ht, hw, rfl, rfl⟩
  | cons r rs ih =>
    intro d hw ht hrs
    have hr : r.touchValue ≤ threshold := hrs r (by simp)
    have hstep : ∃ d0, loop d r = some d0 ∧ d0.isTouched = true ∧ d0.isConnectedWiFi = true ∧
        d0.appendCalls = d.appendCalls ∧ d0.fs = d.fs := by
      by_cases h1 : r.touchValue < threshold
      · refine ⟨{ d with isTouched := true }, ?_, rfl, hw, rfl, rfl⟩
        unfold loop onTouch
        simp only [hw, ht, h1, if_true, Bool.true_eq_false, if_false]
      · have h2 : ¬ r.touchValue > threshold := by omega
        refine ⟨d, ?_, ht, hw, rfl, rfl⟩
        unfold loop
        simp only [hw, h1, h2, Bool.true_eq_false, if_false]
    obtain ⟨d0, s0, s1, s2, s3, s4⟩ := hstep
    obtain ⟨d1, i0, i1, i2, i3, i4⟩ := ih d0 s2 s1 (fun r1 h1 => hrs r1 (by simp [h1]))
    exact ⟨d1, by simp [runLoop, s0, i0], i1, i2, by rw [i3, s3], by rw [i4, s4]⟩

theorem runLoop_append (rs1 rs2 : List Reading) :
    ∀ d : Device, runLoop d (rs1 ++ rs2) =
      match runLoop d rs1 with
      | some d1 => runLoop d1 rs2
      | none => none := by
  induction rs1 with
  | nil => intro d; rfl
  | cons r rs ih =>
    intro d
    cases h : loop d r with
    | none => simp [runLoop, h]
    | some d0 => simp [runLoop, h, ih d0]

theorem loop_release (d : Device) (r : Reading)
    (hw : d.isConnectedWiFi = true) (hr : r.touchValue > threshold) :
    loop d r = some { d with isTouched := false } := by
  have h1 : ¬ r.touchValue < threshold := by omega
  unfold loop
  simp only [hw, h1, hr, Bool.true_eq_false, if_false, if_true]
/-- C7: while WiFi is connected, a touch-and-release cycle (a first reading below the
threshold met with `isTouched` clear, then any readings not above the threshold, then a
reading above it) makes exactly one `appendToCSV` call when the time is available at its
first reading, that of the first reading's date and time on `csvPath`, and none
otherwise: after the cycle, and at every point after its first reading, the volume is
the one that single call leaves (the unchanged volume when the time is not available)
and the list of calls made has grown by that one call (by none); the later readings of
the cycle change neither, and the release clears `isTouched`. The date and time of the
first reading are taken to fit the buffers of `getDate` and `getTime`. -/
theorem one_append_per_touch_cycle (d : Device) (first release : Reading) (held : List Reading)
    (hw : d.isConnectedWiFi = true) (ht : d.isTouched = false)
    (hfirst : first.touchValue < threshold)
    (hheld : ∀ r ∈ held, r.touchValue ≤ threshold)
    (hrelease : release.touchValue > threshold)
    (hfit : ∀ timeInfo, first.localTime = some timeInfo → timeInfo.fitsBuffers = true) :
    ∃ d1 d2, runLoop d (first :: held) = some d1 ∧
      runLoop d (first :: held ++ [release]) = some d2 ∧
      d2.isTouched = false ∧ d2.fs = d1.fs ∧ d2.appendCalls = d1.appendCalls ∧
      (first.localTime = none → d1.fs = d.fs ∧ d1.appendCalls = d.appendCalls) ∧
      (∀ timeInfo, first.localTime = some timeInfo →
        ∃ date time, getDate timeInfo = some date ∧ getTime timeInfo = some time ∧
          d1.fs = (appendToCSV d.fs csvPath date time).2 ∧
          d1.appendCalls = d.appendCalls ++ [(date, time)]) := by
  have hstep : ∃ d0, loop d first = some d0 ∧ d0.isTouched = true ∧
      d0.isConnectedWiFi = true ∧
      (first.localTime = none → d0.fs = d.fs ∧ d0.appendCalls = d.appendCalls) ∧
      (∀ timeInfo, first.localTime = some timeInfo →
        ∃ date time, getDate timeInfo = some date ∧ getTime timeInfo = some time ∧
          d0.fs = (appendToCSV d.fs csvPath date time).2 ∧
          d0.appendCalls = d.appendCalls ++ [(date, time)]) := by
    cases hl : first.localTime with
    | none =>
      refine ⟨_, loop_first_touch_without_time d first hw ht hfirst hl, rfl, hw, ?_, ?_⟩
      · intro _; exact ⟨rfl, rfl⟩
      · intro timeInfo h; cases h
    | some timeInfo =>
      obtain ⟨f1, f2⟩ := formats_fit timeInfo (hfit timeInfo hl)
      refine ⟨_, loop_first_touch_with_time d first timeInfo _ _ hw ht hfirst hl f1 f2, rfl, hw,
        ?_, ?_⟩
      · intro h; cases h
      · intro t2 h2
        injection h2 with h2
        subst h2
        exact ⟨_, _, f1, f2, rfl, rfl⟩
  obtain ⟨d0, s0, s1, s2, s3, s4⟩ := hstep
  obtain ⟨d1, g0, g1, g2, g3, g4⟩ := runLoop_held held d0 s2 s1 hheld
  have e1 : runLoop d (first :: held) = some d1 := by simp [runLoop, s0, g0]
  have e2 : runLoop d (first :: held ++ [release]) = some { d1 with isTouched := false } := by
    rw [runLoop_append (first :: held) [release] d, e1]
    simp [runLoop, loop_release d1 release g2 hrelease]
  refine ⟨d1, { d1 with isTouched := false }, e1, e2, rfl, rfl, rfl, ?_, ?_⟩
  · intro h
    obtain ⟨a, b⟩ := s3 h
    exact ⟨by rw [g4, a], by rw [g3, b]⟩
  · intro timeInfo h
    obtain ⟨date, time, a, b, c, e⟩ := s4 timeInfo h
    exact ⟨date, time, a, b, by rw [g4, c], by rw [g3, e]⟩

theorem one_append_per_touch_cycle_witness :
    idleDevice.isConnectedWiFi = true ∧ idleDevice.isTouched = false ∧
    (readingAt 5 0).touchValue < threshold ∧
    (∀ r ∈ [readingAt 7 1, readingAt 20 2, readingAt 3 3], r.touchValue ≤ threshold) ∧
    (readingAt 40 4).touchValue > threshold ∧
    (∀ timeInfo, (readingAt 5 0).localTime = some timeInfo → timeInfo.fitsBuffers = true) ∧
    (∃ d1 d2,
      runLoop idleDevice (readingAt 5 0 :: [readingAt 7 1, readingAt 20 2, readingAt 3 3]) =
        some d1 ∧
      runLoop idleDevice
        (readingAt 5 0 :: [readingAt 7 1, readingAt 20 2, readingAt 3 3] ++ [readingAt 40 4]) =
        some d2 ∧
      d2.isTouched = false ∧ d2.fs = d1.fs ∧ d2.appendCalls = d1.appendCalls ∧
      ((readingAt 5 0).localTime = none →
        d1.fs = idleDevice.fs ∧ d1.appendCalls = idleDevice.appendCalls) ∧
      (∀ timeInfo, (readingAt 5 0).localTime = some timeInfo →
        ∃ date time, getDate timeInfo = some date ∧ getTime timeInfo = some time ∧
          d1.fs = (appendToCSV idleDevice.fs csvPath date time).2 ∧
          d1.appendCalls = idleDevice.appendCalls ++ [(date, time)])) ∧
    (runLoop idleDevice
        (readingAt 5 0 :: [readingAt 7 1, readingAt 20 2, readingAt 3 3] ++
          [readingAt 40 4])).map (fun d => (d.appendCalls, d.fs.files csvPath, d.isTouched)) =
      some ([("2024/01/01".toList, "09:00".toList)],
        some "customer,date,time\r\n1,2024/01/01,09:00\r\n".toList, false) :=
  ⟨rfl, rfl, by decide, by decide, by decide,
    fun timeInfo h => by
      have e : timeInfo = { tm_year := 124, tm_mon := 0, tm_mday := 1, tm_hour := 9, tm_min := 0 } := by
        simpa [readingAt] using h.symm
      rw [e]; decide,
    one_append_per_touch_cycle idleDevice (readingAt 5 0) (readingAt 40 4)
      [readingAt 7 1, readingAt 20 2, readingAt 3 3] rfl rfl (by decide) (by decide) (by decide)
      (fun timeInfo h => by
        have e : timeInfo =
            { tm_year := 124, tm_mon := 0, tm_mday := 1, tm_hour := 9, tm_min := 0 } := by
          simpa [readingAt] using h.symm
        rw [e]; decide),
    by decide⟩

/-! ## Clearing the log, then querying -/

theorem readCsvFile_of_existing (fs : FS) (path : String) (content : Str)
    (hfile : fs.files path = some content) (hr : fs.fault path OpenMode.read = false) :
    readCsvFile fs path = CString.dangling := by
  simp [readCsvFile, LittleFS.openFile, hfile, hr]

/-- C9 (the code departs from the claim): on a volume that holds a log and serves every
open, `clearFile(csvPath)` succeeds and leaves the file in place with length zero, as
claimed; but the query that follows does not see empty content: `readCsvFile` opens the
file and returns `c_str()` of its local `String`, which is destroyed at the return, so
`countDates` in the `/get-data` handler is handed a dangling pointer. Only on the empty
text itself does `countDates` return the object without entries. -/
theorem clearFile_then_read_dangles :
    (clearFile (volumeWith mixedLog) csvPath).1 = true ∧
      (clearFile (volumeWith mixedLog) csvPath).2.files csvPath = some [] ∧
      readCsvFile (clearFile (volumeWith mixedLog) csvPath).2 csvPath = CString.dangling ∧
      getData (clearFile (volumeWith mixedLog) csvPath).2 = none ∧
      countDates [] = Outcome.ok [] := by
  refine ⟨by decide, by decide, by decide, by decide, by decide⟩

/-! ## The date aggregator: line order -/

theorem fileLines_printlnAll (ls : List Str) (h : ∀ l ∈ ls, '\n' ∉ l) :
    fileLines (printlnAll ls) = ls.map (fun l => l ++ ['\r']) := by
  rw [printlnAll_eq_unlines]
  apply fileLines_unlines
  intro l hl
  obtain ⟨l0, hl0, rfl⟩ := List.mem_map.1 hl
  intro hm
  rcases List.mem_append.1 hm with r | r
  · exact h l0 hl0 r
  · simp at r

theorem isTerminated_unlines (ls : List Str) : isTerminated (unlines ls) = true := by
  induction ls with
  | nil => rfl
  | cons l ls ih =>
    rw [unlines_cons]
    induction l with
    | nil =>
      cases hu : unlines ls with
      | nil => simp [isTerminated]
      | cons c cs => rw [hu] at ih; simpa [isTerminated] using ih
    | cons c cs ihl =>
      cases hcs : cs ++ '\n' :: unlines ls with
      | nil => simp at hcs
      | cons c2 rest =>
        rw [hcs] at ihl
        show isTerminated (c :: (cs ++ '\n' :: unlines ls)) = true
        rw [hcs]
        simpa [isTerminated] using ihl

/-- C6, as amended: for two contents below 2^31 characters that are empty or end in a
newline and whose lines are a permutation of each other, whenever `countDates` returns
on the first it returns on the second and reports the same count for every date (only
the order of the entries may differ); and it does return on the first when each of its
processed lines has at least two commas and they show at most 50 distinct date fields. -/
theorem countDates_line_order (c1 c2 : Str)
    (h1 : c1.length < 2147483648) (h2 : c2.length < 2147483648)
    (ht1 : isTerminated c1 = true) (ht2 : isTerminated c2 = true)
    (hp : (fileLines c1).Perm (fileLines c2)) :
    (∀ r1, countDates c1 = Outcome.ok r1 →
      ∃ r2, countDates c2 = Outcome.ok r2 ∧ ∀ d, reported r1 d = reported r2 d) ∧
    ((∀ l ∈ processedLines c1, 2 ≤ commaCount l) →
      ((processedLines c1).map dateField).dedup.length ≤ MAX_DATES →
      ∃ r1, countDates c1 = Outcome.ok r1) := by
  have hp2 : (csvLines c1).Perm (csvLines c2) := by
    rw [csvLines_eq_fileLines c1 ht1, csvLines_eq_fileLines c2 ht2]; exact hp
  have hd := countedDates_perm c1 c2 hp2
  have hl := tally_length_perm _ _ hd
  constructor
  · intro r1 hr1
    rw [countDates_eq c1 h1] at hr1
    rw [countDates_eq c2 h2, ← hl]
    by_cases hc : (tally (countedDates c1)).length ≤ MAX_DATES
    · rw [if_pos hc] at hr1 ⊢
      injection hr1 with hr1
      exact ⟨_, rfl, fun d => by rw [← hr1]; exact reported_tally_perm _ _ hd d⟩
    · rw [if_neg hc] at hr1; cases hr1
  · intro hwf hcap
    refine ⟨tally (countedDates c1), ?_⟩
    rw [countDates_eq c1 h1, tally_length, countedDates_eq_dateFields c1 h1 hwf, if_pos hcap]

theorem countDates_line_order_witness :
    orderedLog.length < 2147483648 ∧ shuffledLog.length < 2147483648 ∧
    isTerminated orderedLog = true ∧ isTerminated shuffledLog = true ∧
    (fileLines orderedLog).Perm (fileLines shuffledLog) ∧
    (∀ l ∈ processedLines orderedLog, 2 ≤ commaCount l) ∧
    ((processedLines orderedLog).map dateField).dedup.length ≤ MAX_DATES ∧
    countDates orderedLog =
      Outcome.ok [("2024/01/01".toList, 2), ("2024/01/02".toList, 1)] ∧
    (∃ r2, countDates shuffledLog = Outcome.ok r2 ∧
      ∀ d, reported [("2024/01/01".toList, 2), ("2024/01/02".toList, 1)] d = reported r2 d) ∧
    (∃ r1, countDates orderedLog = Outcome.ok r1) ∧
    countDates shuffledLog =
      Outcome.ok [("2024/01/02".toList, 1), ("2024/01/01".toList, 2)] :=
  ⟨by decide, by decide, by decide, by decide, by decide, by decide, by decide, by decide,
    (countDates_line_order orderedLog shuffledLog (by decide) (by decide) (by decide)
      (by decide) (by decide)).1 _ (by decide),
    (countDates_line_order orderedLog shuffledLog (by decide) (by decide) (by decide)
      (by decide) (by decide)).2 (by decide) (by decide),
    by decide⟩

set_option maxRecDepth 100000 in
/-- C6 as stated fails in two ways. (a) The text "1,2024/01/01,09:00" newline
"1,2024/01/02,08:00", whose second line has no newline, and the text with the two lines
swapped have the same lines, yet `countDates` stops at the last newline and reports
2024/01/01 once on the first text and not at all on the second. (b) On the log of 51
appends with 51 different dates, and on the same log with the data lines in reverse
order, `countDates` writes `dates[50]`, past the end of its arrays, and reports no count
at all. -/
theorem countDates_line_order_fails :
    ((fileLines "1,2024/01/01,09:00\n1,2024/01/02,08:00".toList).Perm
        (fileLines "1,2024/01/02,08:00\n1,2024/01/01,09:00".toList) ∧
      countDates "1,2024/01/01,09:00\n1,2024/01/02,08:00".toList =
        Outcome.ok [("2024/01/01".toList, 1)] ∧
      countDates "1,2024/01/02,08:00\n1,2024/01/01,09:00".toList =
        Outcome.ok [("2024/01/02".toList, 1)] ∧
      reported [("2024/01/01".toList, 1)] "2024/01/01".toList ≠
        reported [("2024/01/02".toList, 1)] "2024/01/01".toList) ∧
    ((fileLines (printlnAll (csvHeader :: dataLines (yearlyTouches 51)))).Perm
        (fileLines (printlnAll (csvHeader :: dataLines (yearlyTouches 51).reverse))) ∧
      countDates (printlnAll (csvHeader :: dataLines (yearlyTouches 51))) =
        Outcome.outOfBounds ∧
      countDates (printlnAll (csvHeader :: dataLines (yearlyTouches 51).reverse)) =
        Outcome.outOfBounds) := by
  have hfmt : ∀ e ∈ yearlyTouches 51, isDate e.1 = true ∧ isTime e.2 = true := by decide
  have hfmt2 : ∀ e ∈ (yearlyTouches 51).reverse, isDate e.1 = true ∧ isTime e.2 = true := by
    decide
  refine ⟨⟨by decide, by decide, by decide, by decide⟩, ?_, ?_, ?_⟩
  · rw [fileLines_printlnAll _ (by decide), fileLines_printlnAll _ (by decide)]
    apply List.Perm.map
    apply List.Perm.cons
    unfold dataLines
    rw [List.map_reverse]
    exact (List.reverse_perm _).symm
  · rw [countDates_of_appends _ hfmt (by decide)]; decide
  · rw [countDates_of_appends _ hfmt2 (by decide)]; decide

/-! ## The date aggregator: capacity on well-formed logs -/

/-- C14, as amended: `countDates` has room for 50 distinct dates and no capacity check.
In every iteration the search reads `dates[i]` and counts at `counts[i]` only for
`i < uniqueDateCount`, and a date that is not found is written at index
`uniqueDateCount`. For a content below 2^31 characters whose processed lines (the
newline-terminated lines that are neither empty nor start with "customer") each have at
least two commas: when they show at most 50 distinct date fields, `uniqueDateCount` is at
most 50 before every iteration and below 50 whenever a new date is written, so every
index used is below `MAX_DATES`, and the function returns; when they show more than 50
(51, say), some iteration starts with `uniqueDateCount = 50` and a date that is not
found, so the write index is 50: the bound is exceeded, unchecked. -/
theorem countDates_capacity (csv : Str) (hlen : csv.length < 2147483648)
    (hwf : ∀ l ∈ processedLines csv, 2 ≤ commaCount l) :
    (((processedLines csv).map dateField).dedup.length ≤ MAX_DATES →
      (∃ t r, countDatesLoop csv (csv.length + 1) 0 DateTable.init = Outcome.ok t ∧
        t.uniqueDateCount ≤ MAX_DATES ∧ countDates csv = Outcome.ok r) ∧
      ∀ pre line post, csvLines csv = pre ++ line :: post → isCounted line = true →
        ∃ t, tallyLines DateTable.init pre = Outcome.ok t ∧ t.uniqueDateCount ≤ MAX_DATES ∧
          ∀ t1, searchDates (countDatesDate line) t t.uniqueDateCount 0 =
              Outcome.ok (t1, false) → t.uniqueDateCount < MAX_DATES) ∧
    (MAX_DATES < ((processedLines csv).map dateField).dedup.length →
      countDates csv = Outcome.outOfBounds ∧
      ∃ pre line post t, csvLines csv = pre ++ line :: post ∧ isCounted line = true ∧
        tallyLines DateTable.init pre = Outcome.ok t ∧ t.uniqueDateCount = MAX_DATES ∧
        searchDates (countDatesDate line) t t.uniqueDateCount 0 = Outcome.ok (t, false)) := by
  have hd := countedDates_eq_dateFields csv hlen hwf
  have h := countDates_capacity_of_counted csv hlen
  rw [hd] at h
  exact h

set_option maxRecDepth 1000000 in
theorem countDates_capacity_witness :
    exampleLog.length < 2147483648 ∧
    (∀ l ∈ processedLines exampleLog, 2 ≤ commaCount l) ∧
    ((processedLines exampleLog).map dateField).dedup.length ≤ MAX_DATES ∧
    ((∃ t r, countDatesLoop exampleLog (exampleLog.length + 1) 0 DateTable.init = Outcome.ok t ∧
        t.uniqueDateCount ≤ MAX_DATES ∧ countDates exampleLog = Outcome.ok r) ∧
      ∀ pre line post, csvLines exampleLog = pre ++ line :: post → isCounted line = true →
        ∃ t, tallyLines DateTable.init pre = Outcome.ok t ∧ t.uniqueDateCount ≤ MAX_DATES ∧
          ∀ t1, searchDates (countDatesDate line) t t.uniqueDateCount 0 =
              Outcome.ok (t1, false) → t.uniqueDateCount < MAX_DATES) ∧
    (printlnAll (csvHeader :: dataLines (yearlyTouches 51))).length < 2147483648 ∧
    (∀ l ∈ processedLines (printlnAll (csvHeader :: dataLines (yearlyTouches 51))),
      2 ≤ commaCount l) ∧
    MAX_DATES < ((processedLines (printlnAll (csvHeader :: dataLines (yearlyTouches 51)))).map
      dateField).dedup.length ∧
    (countDates (printlnAll (csvHeader :: dataLines (yearlyTouches 51))) = Outcome.outOfBounds ∧
      ∃ pre line post t,
        csvLines (printlnAll (csvHeader :: dataLines (yearlyTouches 51))) = pre ++ line :: post ∧
        isCounted line = true ∧
        tallyLines DateTable.init pre = Outcome.ok t ∧ t.uniqueDateCount = MAX_DATES ∧
        searchDates (countDatesDate line) t t.uniqueDateCount 0 = Outcome.ok (t, false)) :=
  ⟨by decide, by decide, by decide,
    (countDates_capacity exampleLog (by decide) (by decide)).1 (by decide),
    by decide, by decide, by decide,
    (countDates_capacity (printlnAll (csvHeader :: dataLines (yearlyTouches 51)))
      (by decide) (by decide)).2 (by decide)⟩

set_option maxRecDepth 1000000 in
/-- C14 as stated fails in two ways. (a) The log of 49 appends with 49 different dates
followed by the lines "garbageA" and "garbageB" has 49 distinct date fields on its lines
with two commas, 50 when the empty text between the commas that the two other lines lack
is counted as well; `countDates` enters each of these two lines under its whole text
and writes `dates[50]`. (b) The log of 50 appends with 50 different dates followed by a
data line with a 51st date and no newline has 51 distinct date fields on its lines,
each with two commas; `countDates` stops at the last newline, writes no index above 49
and returns its 50 entries. -/
theorem countDates_capacity_fails :
    (garbageLog.length < 2147483648 ∧
      (((processedLines garbageLog).filter (fun l => decide (2 ≤ commaCount l))).map
        dateField).dedup.length = 49 ∧
      ((processedLines garbageLog).map dateField).dedup.length = 50 ∧
      countDates garbageLog = Outcome.outOfBounds) ∧
    ((((fileLines tailLog).filter isCounted).map dateField).dedup.length = 51 ∧
      (∀ l ∈ (fileLines tailLog).filter isCounted, commaCount l = 2) ∧
      countDates tailLog = Outcome.ok ((yearlyTouches 50).map (fun e => (e.1, 1))) ∧
      ((yearlyTouches 50).map (fun e => (e.1, 1))).length = 50) := by
  refine ⟨⟨by decide, by decide, by decide, by decide⟩,
    ⟨by decide, by decide, by decide, by decide⟩⟩

end CustomerCounter
